import Mathlib

/-!
Verification development for the scan-in invoice field-extraction engine.

The Go source (src/main.go and the near-identical revisions in src/unnamed/)
is shallowly embedded here: strings are Lean `String`s (the relevant texts are
ASCII plus the currency symbols, so Go's byte indices coincide with character
indices on every reachable input), machine floats are modelled as `ℚ`
(every amount the engine parses is a decimal literal made of digits and
separators, on which IEEE doubles and rationals order and compare alike for
the magnitudes involved), and Go's randomized map iteration order is made
explicit as a parameter listing the map's keys in the order a given run
happens to visit them.
-/

namespace ScanIn

/-- ASCII lower-casing of one character, as Go's `strings.ToLower` acts on
the ASCII range (the only letters the engine compares). -/
def chLower (c : Char) : Char :=
  if 'A' ≤ c ∧ c ≤ 'Z' then Char.ofNat (c.toNat + 32) else c

/-- Model of `strings.ToLower` on the engine's ASCII-plus-symbols texts. -/
def strLower (s : String) : String :=
  String.mk (s.data.map chLower)

/-- Does `p` occur as a leading run of `s`? -/
def leadMatches : List Char → List Char → Bool
  | [], _ => true
  | _ :: _, [] => false
  | p :: ps, c :: cs => p == c && leadMatches ps cs

/-- Substring occurrence on character lists. -/
def hasSub (sub : List Char) : List Char → Bool
  | [] => sub.isEmpty
  | c :: cs => leadMatches sub (c :: cs) || hasSub sub (c :: cs).tail

/-- Model of Go `strings.Contains s sub`. -/
def goContains (s sub : String) : Bool :=
  hasSub sub.data s.data

/-- Whitespace characters trimmed by Go's `strings.TrimSpace` (the ASCII
ones; the engine's texts contain no exotic Unicode spaces). -/
def isGoSpace (c : Char) : Bool :=
  c == ' ' || c == '\t' || c == '\n' || c == '\r' || c == '\x0b' || c == '\x0c'

/-- Model of Go `strings.TrimSpace`. -/
def trimSpace (s : String) : String :=
  String.mk (((s.data.dropWhile isGoSpace).reverse.dropWhile isGoSpace).reverse)

/-- Index of the last occurrence of `c` in `l` (Go `strings.LastIndex`). -/
def lastIdxOf (c : Char) (l : List Char) : Option Nat :=
  (l.foldl (fun (st : Nat × Option Nat) ch =>
    (st.1 + 1, if ch == c then some st.1 else st.2)) (0, none)).2

/-- Numeric value of a digit run. -/
def digitsToNat (l : List Char) : Nat :=
  l.foldl (fun a c => a * 10 + (c.toNat - 48)) 0

/-- Model of Go `strconv.ParseFloat` on the strings the engine can feed it:
runs of decimal digits with at most one period (anything else is a parse
error there as here).  The value is returned exactly, as a rational. -/
def parseFloatQ (s : String) : Option ℚ :=
  let cs := s.data
  if cs.isEmpty then none
  else if cs.all (fun c => c.isDigit || c == '.') ∧ cs.count '.' ≤ 1 ∧
      cs.any Char.isDigit then
    let ip := cs.takeWhile (fun c => c != '.')
    let fp := (cs.dropWhile (fun c => c != '.')).drop 1
    some (mkRat (digitsToNat ip * 10 ^ fp.length + digitsToNat fp) (10 ^ fp.length))
  else none

/-- Translation of `parseAmount` (src/main.go:778-830).  Note the source's
one-comma and many-comma branches: after splicing a period in place of the
last comma, the code reassigns `processedStr` to
`ReplaceAll(processedStr[:lastCommaIndex], ...)` — only the prefix *before*
the comma survives, so everything from the comma on is discarded. -/
def parseAmount (amountStr : String) : Option ℚ :=
  let cs := amountStr.data
  let commaCount := cs.count ','
  let periodCount := cs.count '.'
  let processed : List Char :=
    if (commaCount = 1 ∧ periodCount ≥ 1) ∨ (commaCount = 1 ∧ periodCount = 0) then
      match lastIdxOf ',' cs with
      | some i => (cs.take i).filter (fun c => c != '.')
      | none => cs
    else if periodCount = 1 then
      cs.filter (fun c => c != ',')
    else if commaCount = 0 ∧ periodCount = 0 then
      cs
    else if periodCount > 1 then
      match lastIdxOf '.' cs with
      | some i => (((cs.take i).filter (fun c => c != '.')) ++ cs.drop i).filter
          (fun c => c != ',')
      | none => cs
    else if commaCount > 1 then
      match lastIdxOf ',' cs with
      | some i => (cs.take i).filter (fun c => c != ',')
      | none => cs
    else cs
  parseFloatQ (String.mk processed)

/-! ### A small matching engine for the source's regular expressions

Go's `regexp` package implements leftmost-first (backtracking-preference)
semantics.  Every pattern the engine compiles falls into a small shape
grammar — case-insensitive literals, greedy character-class quantifiers,
a capture of an id token `([A-Za-z0-9-]+)`, the decimal-amount group
`\d{1,3}(?:[.,]\d{3})*[.,]\d{2}`, and the currency alternation
`[\$€£]|EUR|USD|GBP` — so the patterns are embedded as token lists and
matched by an explicit backtracking interpreter: each token yields its
candidate consumptions in greedy preference order, and the sequence matcher
takes the first candidate whose continuation succeeds, which is exactly the
leftmost-first rule. -/

/-- RE2 `\s`, i.e. `[\t\n\f\r ]`. -/
def reSpace (c : Char) : Bool :=
  c == ' ' || c == '\t' || c == '\n' || c == '\x0c' || c == '\r'

/-- ASCII letter. -/
def isAlphaCh (c : Char) : Bool :=
  ('a' ≤ c && c ≤ 'z') || ('A' ≤ c && c ≤ 'Z')

/-- Class `[A-Za-z0-9]`. -/
def isAlnumCh (c : Char) : Bool :=
  isAlphaCh c || c.isDigit

/-- Class `[A-Za-z0-9-]`, the invoice-number token class. -/
def idCls (c : Char) : Bool :=
  isAlnumCh c || c == '-'

/-- Class `[oice]` under `(?i)`. -/
def oiceCls (c : Char) : Bool :=
  chLower c == 'o' || chLower c == 'i' || chLower c == 'c' || chLower c == 'e'

/-- Class `[-#\s.:]`, the label/number separator class. -/
def sepCls (c : Char) : Bool :=
  c == '-' || c == '#' || reSpace c || c == '.' || c == ':'

/-- Class `[\$€£]`, the currency symbol class. -/
def symCls (c : Char) : Bool :=
  c == '$' || c == '€' || c == '£'

/-- Case-insensitive "does `p` lead `s`". -/
def ciLead : List Char → List Char → Bool
  | [], _ => true
  | _ :: _, [] => false
  | p :: ps, c :: cs => chLower p == chLower c && ciLead ps cs

/-- The list `[hi, hi-1, ..., lo]` (empty when `hi < lo`): greedy preference order. -/
def downTo (hi lo : Nat) : List Nat :=
  (List.range (hi + 1 - lo)).map (fun j => hi - j)

/-- Length of the leading run of `p`-characters. -/
def leadRun (p : Char → Bool) (s : List Char) : Nat :=
  (s.takeWhile p).length

/-- Does `s` begin with `[.,]` followed by three digits? -/
def sepDigit3 (s : List Char) : Bool :=
  match s with
  | a :: b :: c :: d :: _ =>
      (a == '.' || a == ',') && b.isDigit && c.isDigit && d.isDigit
  | _ => false

/-- Does `s` begin with `[.,]` followed by two digits? -/
def sepDigit2 (s : List Char) : Bool :=
  match s with
  | a :: b :: c :: _ => (a == '.' || a == ',') && b.isDigit && c.isDigit
  | _ => false

/-- Greedy count of consecutive `[.,]\d{3}` groups (fuel-bounded; each
group consumes four characters, so `s.length` fuel is always enough). -/
def iterMaxF : Nat → List Char → Nat
  | 0, _ => 0
  | fuel + 1, s => if sepDigit3 s then 1 + iterMaxF fuel (s.drop 4) else 0

/-- All lengths at which `\d{1,3}(?:[.,]\d{3})*[.,]\d{2}` matches a leading
segment of `s`, in backtracking preference order (digit count descending,
then repetition count descending). -/
def amtCandidates (s : List Char) : List Nat :=
  (downTo (min 3 (leadRun Char.isDigit s)) 1).flatMap (fun d =>
    (downTo (iterMaxF s.length (s.drop d)) 0).filterMap (fun r =>
      if sepDigit2 (s.drop (d + 4 * r)) then some (d + 4 * r + 3) else none))

/-- Leading match of the alternation `[\$€£]|EUR|USD|GBP` (case-insensitive,
alternatives mutually exclusive at any position): its length, if any. -/
def curCand : List Char → Option Nat
  | [] => none
  | c :: cs =>
      if symCls c then some 1
      else if ciLead ['e', 'u', 'r'] (c :: cs) then some 3
      else if ciLead ['u', 's', 'd'] (c :: cs) then some 3
      else if ciLead ['g', 'b', 'p'] (c :: cs) then some 3
      else none

/-- One element of an embedded pattern. -/
inductive Tok where
  | lit (w : String)
  | cls (p : Char → Bool)
  | star (p : Char → Bool)
  | plus (p : Char → Bool)
  | rep (p : Char → Bool) (lo hi : Nat)
  | opt (p : Char → Bool)
  | alts (ws : List String)
  | grpCls (p : Char → Bool)
  | grpPlus (p : Char → Bool)
  | grpAmt
  | grpCur
  | grpOptCls (p : Char → Bool)
  | optSpCur

/-- Candidate consumptions of one token at the head of `s`, each with the
capture strings it contributes, in greedy (leftmost-first) preference
order.  Optional capture groups that do not participate contribute `""`,
as Go's `FindStringSubmatch` reports them. -/
def cand : Tok → List Char → List (Nat × List String)
  | .lit w, s => if ciLead w.data s then [(w.length, [])] else []
  | .cls p, s =>
      match s with
      | c :: _ => if p c then [(1, [])] else []
      | [] => []
  | .star p, s => (downTo (leadRun p s) 0).map (fun k => (k, []))
  | .plus p, s => (downTo (leadRun p s) 1).map (fun k => (k, []))
  | .rep p lo hi, s => (downTo (min hi (leadRun p s)) lo).map (fun k => (k, []))
  | .opt p, s =>
      match s with
      | c :: _ => if p c then [(1, []), (0, [])] else [(0, [])]
      | [] => [(0, [])]
  | .alts ws, s =>
      ws.filterMap (fun w =>
        if ciLead w.data s then some (w.length, ([] : List String)) else none)
  | .grpCls p, s =>
      match s with
      | c :: _ => if p c then [(1, [String.mk [c]])] else []
      | [] => []
  | .grpPlus p, s => (downTo (leadRun p s) 1).map (fun k => (k, [String.mk (s.take k)]))
  | .grpAmt, s => (amtCandidates s).map (fun k => (k, [String.mk (s.take k)]))
  | .grpCur, s =>
      match curCand s with
      | some n => [(n, [String.mk (s.take n)])]
      | none => []
  | .grpOptCls p, s =>
      match s with
      | c :: _ => if p c then [(1, [String.mk [c]]), (0, [""])] else [(0, [""])]
      | [] => [(0, [""])]
  | .optSpCur, s =>
      ((downTo (leadRun reSpace s) 0).filterMap (fun k =>
        match curCand (s.drop k) with
        | some n => some (k + n, [String.mk ((s.drop k).take n)])
        | none => none)) ++ [(0, [""])]

/-- Backtracking sequence matcher: consumed length and captures of the
first (in preference order) way the token list matches a leading segment
of `s`. -/
def runSeq : List Tok → List Char → Option (Nat × List String)
  | [], _ => some (0, [])
  | t :: ts, s =>
      (cand t s).findSome? (fun kc =>
        (runSeq ts (s.drop kc.1)).map (fun res => (kc.1 + res.1, kc.2 ++ res.2)))

/-- Leftmost match: start index, length and captures of the match that
begins as early as possible in `s`. -/
def seek (toks : List Tok) : List Char → Option (Nat × Nat × List String)
  | [] =>
      match runSeq toks [] with
      | some (n, caps) => some (0, n, caps)
      | none => none
  | c :: cs =>
      match runSeq toks (c :: cs) with
      | some (n, caps) => some (0, n, caps)
      | none => (seek toks cs).map (fun r => (r.1 + 1, r.2))

/-- Model of `FindStringSubmatch`, returning just the capture groups. -/
def findGroups (toks : List Tok) (s : String) : Option (List String) :=
  (seek toks s.data).map (fun r => r.2.2)

/-- Model of `FindString`: the text of the leftmost match, if any. -/
def findFull (toks : List Tok) (s : String) : Option String :=
  (seek toks s.data).map (fun r => String.mk ((s.data.drop r.1).take r.2.1))

/-- Model of `FindAllStringSubmatch` (fuel-bounded; the search resumes
after each match, advancing at least one character). -/
def findAllGroupsF (toks : List Tok) : Nat → List Char → List (List String)
  | 0, _ => []
  | fuel + 1, s =>
      match seek toks s with
      | none => []
      | some (i, n, caps) => caps :: findAllGroupsF toks fuel (s.drop (i + max n 1))

/-- All (non-overlapping, leftmost-first) capture lists in `s`. -/
def findAllGroups (toks : List Tok) (s : String) : List (List String) :=
  findAllGroupsF toks (s.data.length + 1) s.data

/-- Model of `FindAllString` for `[A-Za-z0-9][-A-Za-z0-9]{2,}`: at each
position whose character is alphanumeric, the greedy run of id-characters
after it must have length at least two; the match is maximal and the scan
resumes after it. -/
def alnumRunsF : Nat → List Char → List String
  | 0, _ => []
  | _ + 1, [] => []
  | fuel + 1, c :: rest =>
      if isAlnumCh c then
        let run := rest.takeWhile idCls
        if 2 ≤ run.length then
          String.mk (c :: run) :: alnumRunsF fuel (rest.drop run.length)
        else alnumRunsF fuel rest
      else alnumRunsF fuel rest

/-- All matches of `[A-Za-z0-9][-A-Za-z0-9]{2,}` in `s`. -/
def alnumRuns (s : String) : List String :=
  alnumRunsF s.data.length s.data

/-- Capture group `i` of a match, `""` when absent (Go's submatch slice
indexing, shifted by one since the full match is not stored here). -/
def capAt (caps : List String) (i : Nat) : String :=
  caps.getD i ""

/-! ### Data model -/

/-- One OCR-recognized line with its bounding-box position
(src/main.go:177-183). -/
structure TextLine where
  text : String
  x : Int
  y : Int
  width : Int
  height : Int
deriving Repr, DecidableEq

/-- The engine's output record (src/main.go:25-32; the gorm bookkeeping
fields are persistence glue outside the engine). -/
structure Invoice where
  invoiceNumber : String
  date : String
  totalAmount : ℚ
  currency : String
  vendorName : String
deriving Repr, DecidableEq

/-- Maximum `y` over the lines, 0 for the empty document
(the `maxY := 0; if line.Y > maxY` loops of the source). -/
def maxYOf (textLines : List TextLine) : Int :=
  textLines.foldl (fun m l => if l.y > m then l.y else m) 0

/-- Maximum `x` over the lines, 0 for the empty document. -/
def maxXOf (textLines : List TextLine) : Int :=
  textLines.foldl (fun m l => if l.x > m then l.x else m) 0

/-- Model of `strings.Contains(strings.ToLower(text), sub)`. -/
def lowContains (t sub : String) : Bool :=
  goContains (strLower t) sub

/-! ### Invoice number resolver (src/main.go:313-443, identical in
src/unnamed/part_002:583-713) -/

/-- The thirteen invoice-number patterns, in source order. -/
def invoicePatterns : List (List Tok) :=
  [ [.lit "inv", .star oiceCls, .star sepCls, .grpPlus idCls],
    [.lit "invoice", .star reSpace, .lit "number", .star sepCls, .grpPlus idCls],
    [.lit "invoice", .star reSpace, .lit "#", .star reSpace, .grpPlus idCls],
    [.lit "invoice", .star reSpace, .lit "no", .opt (fun c => c == '.'), .star reSpace,
      .grpPlus idCls],
    [.lit "inv", .star reSpace, .lit "no", .opt (fun c => c == '.'), .star reSpace,
      .grpPlus idCls],
    [.lit "order", .star reSpace, .lit "number", .star sepCls, .grpPlus idCls],
    [.lit "order", .star reSpace, .lit "#", .star reSpace, .grpPlus idCls],
    [.lit "order", .star reSpace, .lit "no", .opt (fun c => c == '.'), .star reSpace,
      .grpPlus idCls],
    [.lit "reference", .star reSpace, .lit "number", .star sepCls, .grpPlus idCls],
    [.lit "reference", .star reSpace, .lit "#", .star reSpace, .grpPlus idCls],
    [.lit "reference", .star reSpace, .lit "no", .opt (fun c => c == '.'), .star reSpace,
      .grpPlus idCls],
    [.lit "ref", .star reSpace, .lit "no", .opt (fun c => c == '.'), .star reSpace,
      .grpPlus idCls],
    [.lit "#", .star reSpace, .grpPlus idCls] ]

/-- The per-line pattern cascade shared by all four tiers: first pattern
whose capture, after trimming, has length greater than one. -/
def tryPatterns (text : String) : Option String :=
  invoicePatterns.findSome? (fun p =>
    match findGroups p text with
    | some caps =>
        let result := trimSpace (capAt caps 0)
        if 1 < result.length then some result else none
    | none => none)

/-- Tier-1 fallback: any `[A-Za-z0-9][-A-Za-z0-9]{2,}` run that is
not itself one of the keywords and is longer than two characters. -/
def keywordSeqFallback (text : String) : Option String :=
  (alnumRuns text).findSome? (fun m =>
    let lowerMatch := strLower m
    if lowerMatch != "invoice" && lowerMatch != "number" && lowerMatch != "inv" &&
        2 < m.length then
      some m
    else none)

/-- Tier 1 of `extractInvoiceNumberFromPosition` (source lines 349-383):
top-30%, right-half lines bearing a keyword, patterns then the
alphanumeric-run fallback, first hit returned. -/
def invTier1 (textLines : List TextLine) : Option String :=
  textLines.findSome? (fun line =>
    if line.y < maxYOf textLines * 3 / 10 ∧ line.x > maxXOf textLines / 2 then
      if goContains (strLower line.text) "invoice" ∨
          goContains (strLower line.text) "inv" ∨
          goContains (strLower line.text) "number" ∨
          goContains (strLower line.text) "#" then
        (tryPatterns line.text).orElse (fun _ => keywordSeqFallback line.text)
      else none
    else none)

/-- Tier 2 (source lines 386-405): keyword lines anywhere, patterns only. -/
def invTier2 (textLines : List TextLine) : Option String :=
  textLines.findSome? (fun line =>
    if goContains (strLower line.text) "invoice" ∨
        goContains (strLower line.text) "inv" ∨
        goContains (strLower line.text) "number" ∨
        goContains (strLower line.text) "order" ∨
        goContains (strLower line.text) "reference" then
      tryPatterns line.text
    else none)

/-- Tier 3 (source lines 411-425): any top-half line, patterns only. -/
def invTier3 (textLines : List TextLine) : Option String :=
  textLines.findSome? (fun line =>
    if line.y < maxYOf textLines / 2 then tryPatterns line.text else none)

/-- Tier 4 (source lines 428-440): every line, patterns only. -/
def invTier4 (textLines : List TextLine) : Option String :=
  textLines.findSome? (fun line => tryPatterns line.text)

/-- Translation of `extractInvoiceNumberFromPosition`: the four sequential
early-return loops of the source as an ordered cascade. -/
def extractInvoiceNumberFromPosition (textLines : List TextLine) : String :=
  ((((invTier1 textLines).orElse (fun _ => invTier2 textLines)).orElse
    (fun _ => invTier3 textLines)).orElse
    (fun _ => invTier4 textLines)).getD "UNKNOWN"

/-! ### Date resolver (src/main.go:445-515) -/

/-- The numeric date separator class: dash, slash or period. -/
def dateSep (c : Char) : Bool :=
  c == '-' || c == '/' || c == '.'

/-- Class `[,\s]`. -/
def commaSp (c : Char) : Bool :=
  c == ',' || reSpace c

/-- Month abbreviations, in the source's alternation order. -/
def months3 : List String :=
  ["jan", "feb", "mar", "apr", "may", "jun", "jul", "aug", "sep", "oct", "nov", "dec"]

/-- Full month names, in the source's alternation order. -/
def monthsFull : List String :=
  ["january", "february", "march", "april", "may", "june", "july", "august",
   "september", "october", "november", "december"]

/-- The six date patterns, in source order. -/
def datePatterns : List (List Tok) :=
  [ [.rep Char.isDigit 1 2, .cls dateSep, .rep Char.isDigit 1 2, .cls dateSep,
      .rep Char.isDigit 2 4],
    [.rep Char.isDigit 4 4, .cls dateSep, .rep Char.isDigit 1 2, .cls dateSep,
      .rep Char.isDigit 1 2],
    [.alts months3, .star isAlphaCh, .opt (fun c => c == '.'), .plus reSpace,
      .rep Char.isDigit 1 2, .plus commaSp, .rep Char.isDigit 2 4],
    [.alts monthsFull, .plus reSpace, .rep Char.isDigit 1 2, .plus commaSp,
      .rep Char.isDigit 2 4],
    [.rep Char.isDigit 1 2, .plus reSpace, .alts months3, .star isAlphaCh,
      .opt (fun c => c == '.'), .plus reSpace, .rep Char.isDigit 2 4],
    [.rep Char.isDigit 1 2, .plus reSpace, .alts monthsFull, .plus reSpace,
      .rep Char.isDigit 2 4] ]

/-- The date keyword list. -/
def dateKeywords : List String :=
  ["date", "issued", "invoice date", "order date", "billing date"]

/-- Translation of `extractDateFromPosition`. -/
def extractDateFromPosition (textLines : List TextLine) : String :=
  let t1 := textLines.findSome? (fun line =>
    if dateKeywords.any (fun kw => lowContains line.text kw) then
      datePatterns.findSome? (fun p => findFull p line.text)
    else none)
  match t1 with
  | some r => r
  | none =>
    let maxY := maxYOf textLines
    let topHalfThreshold := maxY / 2
    let t2 := textLines.findSome? (fun line =>
      if line.y < topHalfThreshold then
        datePatterns.findSome? (fun p => findFull p line.text)
      else none)
    match t2 with
    | some r => r
    | none =>
      ((textLines.findSome? (fun line =>
        datePatterns.findSome? (fun p => findFull p line.text))).getD "UNKNOWN")

/-! ### Document currency detection (src/main.go:833-881)

The source tallies weighted counts in a Go map and then ranges over that
map; Go's map iteration order is deliberately randomized, so the scan
order of the three keys is modelled as an explicit parameter `ord` — any
single execution visits the keys in some permutation of
`["USD", "EUR", "GBP"]`. -/

/-- Weighted USD count: `$` adds one per line, `usd`/`dollar` adds one per
line, independently. -/
def usdScore (textLines : List TextLine) : Nat :=
  textLines.foldl (fun n l =>
    n + (if goContains l.text "$" then 1 else 0) +
      (if lowContains l.text "usd" || lowContains l.text "dollar" then 1 else 0)) 0

/-- Weighted EUR count: the symbol and the words each add two per line. -/
def eurScore (textLines : List TextLine) : Nat :=
  textLines.foldl (fun n l =>
    n + (if goContains l.text "€" then 2 else 0) +
      (if lowContains l.text "eur" || lowContains l.text "euro" then 2 else 0)) 0

/-- Weighted GBP count: `£` adds one per line, `gbp`/`pound` adds one. -/
def gbpScore (textLines : List TextLine) : Nat :=
  textLines.foldl (fun n l =>
    n + (if goContains l.text "£" then 1 else 0) +
      (if lowContains l.text "gbp" || lowContains l.text "pound" then 1 else 0)) 0

/-- The count associated with a map key. -/
def currencyScore (textLines : List TextLine) (k : String) : Nat :=
  if k = "USD" then usdScore textLines
  else if k = "EUR" then eurScore textLines
  else if k = "GBP" then gbpScore textLines
  else 0

/-- The key set of the source's currency map. -/
def currencyKeys : List String :=
  ["USD", "EUR", "GBP"]

/-- Translation of `detectDocumentCurrency`, with the map iteration order
explicit: strict-majority scan starting from `(0, "EUR")`. -/
def detectDocumentCurrency (ord : List String) (textLines : List TextLine) : String :=
  (ord.foldl (fun (st : Nat × String) k =>
    if currencyScore textLines k > st.1 then (currencyScore textLines k, k) else st)
    (0, "EUR")).2

/-! ### Amount resolver (src/main.go:517-775)

The local variable `currency` is mutated throughout the source function —
including on pattern matches whose numeric parse then fails — so it is
threaded through every loop of the translation as explicit state. -/

/-- One amount pattern: its token list and whether the currency group
follows the amount (the source distinguishes the two shapes by a
`strings.Contains` test on the pattern text). -/
structure AmtPat where
  toks : List Tok
  curAfter : Bool

/-- The eight keyword heads, in source order, as token sequences
(`total`, `amount\s*due`, ..., `payment\s*due`, each then `:?\s*`). -/
def kwHeads : List (List Tok) :=
  [ [.lit "total"],
    [.lit "amount", .star reSpace, .lit "due"],
    [.lit "balance", .star reSpace, .lit "due"],
    [.lit "grand", .star reSpace, .lit "total"],
    [.lit "total", .star reSpace, .lit "amount"],
    [.lit "total", .star reSpace, .lit "due"],
    [.lit "invoice", .star reSpace, .lit "total"],
    [.lit "payment", .star reSpace, .lit "due"] ]

/-- The tail `:?\s*` after a keyword head. -/
def kwTail : List Tok :=
  [.opt (fun c => c == ':'), .star reSpace]

/-- The eighteen currency-bearing patterns, in source order: the eight
keyword symbol-before patterns, the bare symbol-before pattern, the eight
keyword currency-after patterns, the bare currency-after pattern. -/
def amtPatterns : List AmtPat :=
  (kwHeads.map (fun h => AmtPat.mk (h ++ kwTail ++
      [.grpCls symCls, .star reSpace, .grpAmt]) false)) ++
  [AmtPat.mk [.grpCls symCls, .star reSpace, .grpAmt] false] ++
  (kwHeads.map (fun h => AmtPat.mk (h ++ kwTail ++
      [.grpAmt, .star reSpace, .grpCur]) true)) ++
  [AmtPat.mk [.grpAmt, .star reSpace, .grpCur] true]

/-- The eight currency-free keyword patterns, in source order. -/
def noCurPatterns : List (List Tok) :=
  kwHeads.map (fun h => h ++ kwTail ++ [.grpAmt])

/-- The source's `currencyMap` literal. -/
def currencyMapLookup (s : String) : Option String :=
  (([("$", "USD"), ("€", "EUR"), ("£", "GBP"), ("EUR", "EUR"), ("USD", "USD"),
     ("GBP", "GBP"), ("eur", "EUR"), ("usd", "USD"), ("gbp", "GBP")] :
    List (String × String)).lookup s)

/-- The `$` / `€`-or-`eur` / `£`-or-`gbp` if-chain used to infer a currency
from the line text, defaulting to the running currency. -/
def lineSymCurrency (text : String) (cur : String) : String :=
  if goContains text "$" then "USD"
  else if goContains text "€" || lowContains text "eur" then "EUR"
  else if goContains text "£" || lowContains text "gbp" then "GBP"
  else cur

/-- Does a line qualify for the keyword tier? -/
def amountKeywordLine (text : String) : Bool :=
  lowContains text "total" || lowContains text "amount" ||
    lowContains text "balance" || lowContains text "due" ||
    lowContains text "payment"

/-- The keyword tier's currency-pattern loop: first parsed match wins,
currency mutations persisting across failed parses. -/
def tryCurPatterns : List AmtPat → String → String → Option ℚ × String
  | [], _, cur => (none, cur)
  | p :: rest, text, cur =>
      match findGroups p.toks text with
      | some caps =>
          let amountStr := if p.curAfter then capAt caps 0 else capAt caps 1
          let currencySymbol := if p.curAfter then capAt caps 1 else capAt caps 0
          let cur1 := (currencyMapLookup currencySymbol).getD cur
          match parseAmount amountStr with
          | some amount => (some amount, cur1)
          | none => tryCurPatterns rest text cur1
      | none => tryCurPatterns rest text cur

/-- The keyword tier's currency-free loop: first parsed match wins. -/
def tryNoCurPatterns : List (List Tok) → String → Option ℚ
  | [], _ => none
  | p :: rest, text =>
      match findGroups p text with
      | some caps =>
          match parseAmount (capAt caps 0) with
          | some amount => some amount
          | none => tryNoCurPatterns rest text
      | none => tryNoCurPatterns rest text

/-- Keyword tier over the lines (source lines 584-645). -/
def tier1Go : List TextLine → String → Option (ℚ × String) × String
  | [], cur => (none, cur)
  | line :: rest, cur =>
      if amountKeywordLine line.text then
        match tryCurPatterns amtPatterns line.text cur with
        | (some amount, cur1) => (some (amount, cur1), cur1)
        | (none, cur1) =>
            match tryNoCurPatterns noCurPatterns line.text with
            | some amount =>
                let cur2 := lineSymCurrency line.text cur1
                (some (amount, cur2), cur2)
            | none => tier1Go rest cur1
      else tier1Go rest cur

/-- Bottom-zone tier, currency patterns: state is
(running currency, largest amount, its currency). -/
def tier2CurStep : List AmtPat → String → String × ℚ × String → String × ℚ × String
  | [], _, st => st
  | p :: rest, text, (cur, largest, largestCur) =>
      match findGroups p.toks text with
      | some caps =>
          let amountStr := if p.curAfter then capAt caps 0 else capAt caps 1
          let currencySymbol := if p.curAfter then capAt caps 1 else capAt caps 0
          let cur1 := (currencyMapLookup currencySymbol).getD cur
          match parseAmount amountStr with
          | some amount =>
              if amount > largest then tier2CurStep rest text (cur1, amount, cur1)
              else tier2CurStep rest text (cur1, largest, largestCur)
          | none => tier2CurStep rest text (cur1, largest, largestCur)
      | none => tier2CurStep rest text (cur, largest, largestCur)

/-- Bottom-zone tier, currency-free patterns. -/
def tier2NoCurStep : List (List Tok) → String → String × ℚ × String → String × ℚ × String
  | [], _, st => st
  | p :: rest, text, (cur, largest, largestCur) =>
      match findGroups p text with
      | some caps =>
          match parseAmount (capAt caps 0) with
          | some amount =>
              if amount > largest then
                tier2NoCurStep rest text (cur, amount, lineSymCurrency text cur)
              else tier2NoCurStep rest text (cur, largest, largestCur)
          | none => tier2NoCurStep rest text (cur, largest, largestCur)
      | none => tier2NoCurStep rest text (cur, largest, largestCur)

/-- Bottom-zone tier over the lines (source lines 647-711). -/
def tier2Go (bottomThreshold : Int) : List TextLine → String × ℚ × String → String × ℚ × String
  | [], st => st
  | line :: rest, st =>
      if line.y > bottomThreshold then
        tier2Go bottomThreshold rest
          (tier2NoCurStep noCurPatterns line.text (tier2CurStep amtPatterns line.text st))
      else tier2Go bottomThreshold rest st

/-- The whole-document fallback pattern
`([\$€£])?\s*(\d{1,3}(?:[.,]\d{3})*[.,]\d{2})(?:\s*([\$€£]|EUR|USD|GBP))?`. -/
def fallbackToks : List Tok :=
  [.grpOptCls symCls, .star reSpace, .grpAmt, .optSpCur]

/-- Processing of one fallback match (source lines 726-767). -/
def tier3Match (text : String) (cur : String) (st : ℚ × String) (caps : List String) :
    ℚ × String :=
  let g1 := capAt caps 0
  let g2 := capAt caps 1
  let g3 := capAt caps 2
  let currencySymbol := if g3 != "" then g3 else if g1 != "" then g1 else ""
  let matchCurrency :=
    if currencySymbol != "" then (currencyMapLookup currencySymbol).getD cur
    else lineSymCurrency text cur
  match parseAmount g2 with
  | some amount => if amount > st.1 then (amount, matchCurrency) else st
  | none => st

/-- Whole-document fallback tier over the lines (source lines 717-768). -/
def tier3Go (cur : String) : List TextLine → ℚ × String → ℚ × String
  | [], st => st
  | line :: rest, st =>
      tier3Go cur rest ((findAllGroups fallbackToks line.text).foldl
        (tier3Match line.text cur) st)

/-- Body of `extractAmountFromPosition` after the document-currency
detection (whose map-iteration order is the only nondeterministic input):
the three amount tiers. -/
def extractAmountCore (documentCurrency : String) (textLines : List TextLine) :
    ℚ × String :=
  let currency := if documentCurrency != "" then documentCurrency else "EUR"
  let maxY := maxYOf textLines
  match tier1Go textLines currency with
  | (some r, _) => r
  | (none, cur1) =>
      let bottomThreshold := maxY * 7 / 10
      match tier2Go bottomThreshold textLines (cur1, 0, "") with
      | (cur2, largestAmount, largestAmountCurrency) =>
          if largestAmount > 0 then (largestAmount, largestAmountCurrency)
          else
            match tier3Go cur2 textLines (0, "") with
            | (largestDecimalNumber, largestDecimalCurrency) =>
                if largestDecimalNumber > 0 then
                  (largestDecimalNumber, largestDecimalCurrency)
                else (0, cur2)

/-- Translation of `extractAmountFromPosition`, the map iteration order of
the embedded currency detection made explicit. -/
def extractAmountFromPosition (ord : List String) (textLines : List TextLine) :
    ℚ × String :=
  extractAmountCore (detectDocumentCurrency ord textLines) textLines

/-! ### Vendor name resolver (src/unnamed/part_002:237-581)

The claims designate the revision in src/unnamed/part_002 as the vendor
resolver; its domain regexes all share the tail
`([a-z0-9][-a-z0-9]*\.)+[a-z0-9][-a-z0-9]*` (case-insensitive), whose
repeated group is matched greedily and, per Go semantics, captures the
*last* iteration. -/

/-- Length of a leading domain label `[a-z0-9][-a-z0-9]*` (greedy), if the
head is alphanumeric. -/
def labelAt : List Char → Option Nat
  | [] => none
  | c :: cs => if isAlnumCh c then some (1 + leadRun idCls cs) else none

/-- Cumulative offsets after each greedy `label.` iteration (the class
excludes the dot, so each iteration's decomposition is forced). -/
def domItersF : Nat → List Char → List Nat
  | 0, _ => []
  | fuel + 1, s =>
      match labelAt s with
      | some n =>
          if (s.drop n).head? = some '.' then
            (n + 1) :: (domItersF fuel (s.drop (n + 1))).map (fun m => n + 1 + m)
          else []
      | none => []

/-- Leading match of `([a-z0-9][-a-z0-9]*\.)+[a-z0-9][-a-z0-9]*`:
consumed length together with the last iteration's capture.  The plus is
greedy, backing off one iteration at a time until a tail label fits. -/
def domainTailMatch (s : List Char) : Option (Nat × List Char) :=
  let offs := 0 :: domItersF s.length s
  (downTo (offs.length - 1) 1).findSome? (fun k =>
    let start := offs.getD k 0
    let prev := offs.getD (k - 1) 0
    match labelAt (s.drop start) with
    | some m => some (start + m, (s.drop prev).take (start - prev))
    | none => none)

/-- All matches of the website regex `www\.<domain>` in a line; yields the
full match text (the source uses `match[0]`). -/
def websiteScanF : Nat → List Char → List String
  | 0, _ => []
  | _ + 1, [] => []
  | fuel + 1, c :: rest =>
      if ciLead ['w', 'w', 'w', '.'] (c :: rest) then
        match domainTailMatch ((c :: rest).drop 4) with
        | some (m, _) => String.mk ((c :: rest).take (4 + m)) ::
            websiteScanF fuel ((c :: rest).drop (4 + m))
        | none => websiteScanF fuel rest
      else websiteScanF fuel rest

/-- All matches of the email regex `@<domain>` in a line; yields the
captured group (the source uses `match[1]`, the last label-dot
iteration). -/
def emailScanF : Nat → List Char → List String
  | 0, _ => []
  | _ + 1, [] => []
  | fuel + 1, c :: rest =>
      if c == '@' then
        match domainTailMatch rest with
        | some (m, grp) => String.mk grp :: emailScanF fuel (rest.drop m)
        | none => emailScanF fuel rest
      else emailScanF fuel rest

/-- All matches of the URL regex `https?://<domain>` in a line; yields the
captured group (the source appends `match[1]`). -/
def urlScanF : Nat → List Char → List String
  | 0, _ => []
  | _ + 1, [] => []
  | fuel + 1, c :: rest =>
      let s := c :: rest
      let hdr : Option Nat :=
        if ciLead ['h', 't', 't', 'p'] s then
          let s4 := s.drop 4
          if (match s4.head? with
              | some d => d == 's' || d == 'S'
              | none => false) && ciLead [':', '/', '/'] (s4.drop 1) then some 8
          else if ciLead [':', '/', '/'] s4 then some 7
          else none
        else none
      match hdr with
      | some h =>
          match domainTailMatch (s.drop h) with
          | some (m, grp) => String.mk grp :: urlScanF fuel (s.drop (h + m))
          | none => urlScanF fuel rest
      | none => urlScanF fuel rest

/-- Website matches of a line. -/
def websiteScan (s : String) : List String :=
  websiteScanF (s.data.length + 1) s.data

/-- Email-domain captures of a line. -/
def emailScan (s : String) : List String :=
  emailScanF (s.data.length + 1) s.data

/-- URL-domain captures of a line. -/
def urlScan (s : String) : List String :=
  urlScanF (s.data.length + 1) s.data

/-- The address-shape class `[a-z0-9\s,]` (case-insensitive). -/
def addrCls (c : Char) : Bool :=
  isAlphaCh c || c.isDigit || reSpace c || c == ','

/-- The street-type alternation, in source order. -/
def streetWords : List String :=
  ["street", "st", "avenue", "ave", "road", "rd", "boulevard", "blvd", "lane",
   "ln", "drive", "dr", "way", "place", "pl", "court", "ct"]

/-- The address regex `\d+\s+[a-z0-9\s,]+(street|st|...)` (outer capture
group immaterial to `MatchString`). -/
def addressToks : List Tok :=
  [.plus Char.isDigit, .plus reSpace, .plus addrCls, .alts streetWords]

/-- Model of `addressRegex.MatchString`. -/
def addressMatches (text : String) : Bool :=
  (seek addressToks text.data).isSome

/-- Does `suf` end `s`? -/
def endsWithL (suf s : List Char) : Bool :=
  leadMatches suf.reverse s.reverse

/-- Model of Go `strings.TrimSuffix`. -/
def trimSuffixStr (s suf : String) : String :=
  if endsWithL suf.data s.data then
    String.mk (s.data.take (s.data.length - suf.data.length))
  else s

/-- Model of Go `strings.TrimPrefix` (case-sensitive). -/
def trimPreStr (s pre : String) : String :=
  if leadMatches pre.data s.data then String.mk (s.data.drop pre.data.length) else s

/-- Translation of `cleanTextForComparison`: lower-case, strip the business
suffixes in order (each at most once), drop everything outside a-z0-9. -/
def cleanTextForComparison (text : String) : String :=
  let t1 := strLower text
  let t2 := ([" inc", " llc", " ltd", " limited", " corp", " corporation", " co",
    " company"] : List String).foldl trimSuffixStr t1
  String.mk (t2.data.filter (fun c => ('a' ≤ c && c ≤ 'z') || c.isDigit))

/-- The leading markers stripped from a domain before conversion. -/
def leadTrims : List String :=
  ["www", "mail", "info", "support", "contact", "sales"]

/-- Non-overlapping leftmost replacement of `([a-z])([A-Z])` by `$1 $2`. -/
def camelSplit : List Char → List Char
  | [] => []
  | [c] => [c]
  | c :: d :: rest =>
      if ('a' ≤ c && c ≤ 'z') && ('A' ≤ d && d ≤ 'Z') then
        c :: ' ' :: d :: camelSplit rest
      else c :: camelSplit (d :: rest)

/-- Split into whitespace-separated fields (Go `strings.Fields`). -/
def fieldsOfF : Nat → List Char → List (List Char)
  | 0, _ => []
  | _ + 1, [] => []
  | fuel + 1, c :: rest =>
      if isGoSpace c then fieldsOfF fuel rest
      else
        (c :: rest.takeWhile (fun d => !isGoSpace d)) ::
          fieldsOfF fuel (rest.drop (rest.takeWhile (fun d => !isGoSpace d)).length)

/-- Fields of a character list. -/
def fieldsOf (l : List Char) : List (List Char) :=
  fieldsOfF (l.length + 1) l

/-- ASCII upper-casing of one character. -/
def chUpper (c : Char) : Char :=
  if 'a' ≤ c ∧ c ≤ 'z' then Char.ofNat (c.toNat - 32) else c

/-- Capitalize a word: first character upper, rest lower. -/
def capWord : List Char → List Char
  | [] => []
  | c :: rest => chUpper c :: rest.map chLower

/-- Translation of `convertDomainToReadableName`. -/
def convertDomainToReadableName (domain : String) : String :=
  let d1 :=
    match leadTrims.find? (fun p => leadMatches p.data domain.data) with
    | some p => String.mk (domain.data.drop p.data.length)
    | none => domain
  let d2 := d1.data.map (fun c => if isAlnumCh c then c else ' ')
  let d3 := camelSplit d2
  let d4 := ((d3.dropWhile isGoSpace).reverse.dropWhile isGoSpace).reverse
  let words := (fieldsOf d4).map capWord
  String.mk (List.intercalate [' '] words)

/-- Split a character list on a separator character (Go `strings.Split`
with a one-character separator). -/
def splitOnCh (c : Char) : List Char → List (List Char)
  | [] => [[]]
  | d :: rest =>
      if d == c then [] :: splitOnCh c rest
      else
        match splitOnCh c rest with
        | [] => [[d]]
        | w :: ws => (d :: w) :: ws

/-- Model of `strings.Split(domain, ".")[0]`: the part before the first dot. -/
def mainPartOf (d : String) : String :=
  String.mk ((splitOnCh '.' d.data).headD [])

/-- Accumulator of the single pass the source makes over the lines. -/
structure VendAcc where
  websiteDomains : List String
  emailDomains : List String
  domainMainParts : List String
  topLines : List TextLine
  topLeftLines : List TextLine

/-- One line's contribution to the vendor accumulator (source lines
273-326): website matches, then email matches, then URL matches, then the
zone memberships. -/
def vendLineStep (topThreshold leftHalfThreshold : Int) (acc : VendAcc)
    (line : TextLine) : VendAcc :=
  let wms := websiteScan line.text
  let wDomains := wms.map (fun m => trimPreStr m "www.")
  let acc1 : VendAcc :=
    { acc with
      websiteDomains := acc.websiteDomains ++ wDomains
      domainMainParts := acc.domainMainParts ++ wDomains.map mainPartOf }
  let ems := emailScan line.text
  let acc2 : VendAcc :=
    { acc1 with
      emailDomains := acc1.emailDomains ++ ems
      domainMainParts := acc1.domainMainParts ++ ems.map mainPartOf }
  let ums := urlScan line.text
  let acc3 : VendAcc :=
    { acc2 with
      websiteDomains := acc2.websiteDomains ++ ums
      domainMainParts := acc2.domainMainParts ++ ums.map mainPartOf }
  if line.y < topThreshold then
    if line.x < leftHalfThreshold then
      { acc3 with
        topLines := acc3.topLines ++ [line]
        topLeftLines := acc3.topLeftLines ++ [line] }
    else { acc3 with topLines := acc3.topLines ++ [line] }
  else acc3

/-- Deduplication keeping first occurrences: a canonical listing of the
domain set the source collects into a Go map (`uniqueDomains`,
src/unnamed/part_002:449-453).  The randomized order in which the source
then ranges over that map is the explicit `vord` parameter of
`extractVendorNameFromPositionOrd`; theorems constrain `vord` to
permutations of this list. -/
def dedupKeepFirst : List String → List String
  | [] => []
  | s :: rest => s :: (dedupKeepFirst rest).filter (fun t => t != s)

/-- First index `j > 0` whose line text equals `addr`. -/
def findAddrIdx (addr : String) : List TextLine → Nat → Option Nat
  | [], _ => none
  | l :: rest, j =>
      if l.text == addr && j > 0 then some j else findAddrIdx addr rest (j + 1)

/-- The vendor resolver's single pass over the lines, with the zone
thresholds the source computes from the same lines
(src/unnamed/part_002:258-271). -/
def vendorAcc (textLines : List TextLine) : VendAcc :=
  textLines.foldl
    (vendLineStep (maxYOf textLines * 3 / 10) (maxXOf textLines / 2))
    ⟨[], [], [], [], []⟩

/-- The pool of domains strategy 4 deduplicates: website and URL matches,
then email matches, in collection order (`allDomains`,
src/unnamed/part_002:446). -/
def vendorAllDomains (textLines : List TextLine) : List String :=
  (vendorAcc textLines).websiteDomains ++ (vendorAcc textLines).emailDomains

/-- Translation of `extractVendorNameFromPosition`
(src/unnamed/part_002:237-527).  `vord` is the order in which strategy 4's
`for domain := range uniqueDomains` (part_002:456) visits the distinct
domains — randomized per run in Go — so theorems take it as any permutation
of `dedupKeepFirst (vendorAllDomains textLines)`.  Go then sorts the
synthesized names with the unstable `sort.Slice` (part_002:471) and returns
the first: the stable sort applied across all permutations `vord` reaches
exactly the same set of outcomes — some longest synthesized name.  Go's
`sort.Slice` by `y` elsewhere is modelled by the same stable sort; every
claim input has pairwise distinct `y`. -/
def extractVendorNameFromPositionOrd (vord : List String)
    (textLines : List TextLine) : String :=
  if textLines.isEmpty then "UNKNOWN"
  else
    let acc := vendorAcc textLines
    let topLeftSorted := List.insertionSort (fun a b => a.y ≤ b.y) acc.topLeftLines
    let topSorted := List.insertionSort (fun a b => a.y ≤ b.y) acc.topLines
    let logoTextCandidates := (topLeftSorted.take 3).filterMap (fun l =>
      let text := trimSpace l.text
      if 2 < text.length then some text else none)
    let addressLines := (topLeftSorted.filter (fun l => addressMatches l.text)).map
      (fun l => l.text)
    let s1 : Option String := acc.domainMainParts.findSome? (fun dp =>
      let cleanDomainPart := cleanTextForComparison dp
      logoTextCandidates.findSome? (fun logoText =>
        let cleanLogoText := cleanTextForComparison logoText
        if goContains cleanLogoText cleanDomainPart then some logoText
        else if goContains cleanDomainPart cleanLogoText ∧ 3 < logoText.length then
          some logoText
        else none))
    match s1 with
    | some r => r
    | none =>
      let s2 : Option String :=
        match addressLines with
        | [] => none
        | addr0 :: _ =>
            if 1 < topLeftSorted.length then
              match findAddrIdx addr0 topLeftSorted 0 with
              | some j =>
                  let potential :=
                    trimSpace ((topLeftSorted.getD (j - 1) ⟨"", 0, 0, 0, 0⟩).text)
                  let cleanCompanyName := cleanTextForComparison potential
                  if acc.domainMainParts.any (fun dp =>
                      let cleanDomainPart := cleanTextForComparison dp
                      goContains cleanCompanyName cleanDomainPart ||
                        goContains cleanDomainPart cleanCompanyName) then
                    some potential
                  else if 3 < potential.length ∧
                      ¬ lowContains potential "invoice" = true ∧
                      ¬ lowContains potential "bill" = true then
                    some potential
                  else none
              | none => none
            else none
      match s2 with
      | some r => r
      | none =>
        let s3 : Option String := logoTextCandidates.find? (fun logoText =>
          !(lowContains logoText "invoice") && !(lowContains logoText "bill") &&
            !(lowContains logoText "receipt") && !(lowContains logoText "statement"))
        match s3 with
        | some r => r
        | none =>
          let allDomains := acc.websiteDomains ++ acc.emailDomains
          let s4 : Option String :=
            match allDomains with
            | [] => none
            | _ :: _ =>
                let domainBasedNames : List String := vord.map (fun d =>
                  convertDomainToReadableName (mainPartOf d))
                ((List.insertionSort (fun a b : String => b.length ≤ a.length)
                  domainBasedNames).head?)
          match s4 with
          | some r => r
          | none =>
            let potentialVendorNames : List String := topLeftSorted.filterMap (fun l : TextLine =>
              let text := trimSpace l.text
              if 3 < text.length && !(lowContains text "invoice") &&
                  !(lowContains text "bill") && !(lowContains text "receipt") &&
                  !(lowContains text "statement") && !(lowContains text "account") &&
                  !(lowContains text "date") && !(lowContains text "number") then
                some text
              else none)
            let s5 : Option String :=
              match potentialVendorNames with
              | [] => none
              | _ :: _ =>
                  let sorted := List.insertionSort (fun a b : String => b.length ≤ a.length)
                    potentialVendorNames
                  match sorted.find? (fun name => 1 < (fieldsOf name.data).length) with
                  | some name => some name
                  | none => sorted.head?
            match s5 with
            | some r => r
            | none =>
              ((topSorted.findSome? (fun line : TextLine =>
                if 3 < (trimSpace line.text).length then some (trimSpace line.text)
                else none)).getD "UNKNOWN")

/-- The vendor resolver at the canonical first-occurrence domain order: one
admissible execution of the randomized resolver (when strategy 4 deduplicates
at most one distinct domain, the only one). -/
def extractVendorNameFromPosition (textLines : List TextLine) : String :=
  extractVendorNameFromPositionOrd
    (dedupKeepFirst (vendorAllDomains textLines)) textLines

/-! ### Field aggregator (src/main.go:219-242) -/

/-- The engine's initial reading-order sort (src/main.go:221-223;
`sort.Slice` with a strict `<` comparator is modelled by a stable sort;
every claim input has pairwise distinct `y`). -/
def sortedByY (textLines : List TextLine) : List TextLine :=
  List.insertionSort (fun a b => a.y ≤ b.y) textLines

/-- Translation of `parseInvoiceTextWithPosition` with both randomized map
iteration orders explicit: `ord` for the currency-count map of
`detectDocumentCurrency` and `vord` for the vendor resolver's domain set. -/
def parseInvoiceTextWithPositionOrds (ord vord : List String)
    (textLines : List TextLine) : Invoice :=
  let sorted := sortedByY textLines
  let vendorName := extractVendorNameFromPositionOrd vord sorted
  let invoiceNumber := extractInvoiceNumberFromPosition sorted
  let date := extractDateFromPosition sorted
  let ac := extractAmountFromPosition ord sorted
  ⟨invoiceNumber, date, ac.1, ac.2, vendorName⟩

/-- The engine at the canonical first-occurrence domain order: sort by `y`,
then run the four resolvers. -/
def parseInvoiceTextWithPosition (ord : List String) (textLines : List TextLine) :
    Invoice :=
  parseInvoiceTextWithPositionOrds ord
    (dedupKeepFirst (vendorAllDomains (sortedByY textLines))) textLines

/-! ### Line normalizer (src/unnamed/part_000:158-192, inlined in
src/main.go:120-151)

The OCR collaborator's result is a region/line/word hierarchy; each line
carries an optional comma-separated bounding-box string. -/

/-- One OCR line of the external service's result: an optional bounding-box
string and the word texts. -/
structure OcrLine where
  boundingBox : Option String
  words : List String

/-- One OCR region: a list of lines. -/
structure OcrRegion where
  lines : List OcrLine

/-- Model of `strconv.Atoi` with the error discarded, as the source does
(`val, _ := strconv.Atoi(part)`): optional sign then digits, anything else
yields zero.  (Out-of-range clamping is immaterial here.) -/
def atoiOrZero (s : String) : Int :=
  match s.data with
  | [] => 0
  | '+' :: rest =>
      if !rest.isEmpty && rest.all Char.isDigit then (digitsToNat rest : Int) else 0
  | '-' :: rest =>
      if !rest.isEmpty && rest.all Char.isDigit then -(digitsToNat rest : Int) else 0
  | l => if l.all Char.isDigit then (digitsToNat l : Int) else 0

/-- Does `strconv.Atoi` succeed on `s`?  (Used only to state what the
normalizer does *not* check.) -/
def atoiOk (s : String) : Bool :=
  match s.data with
  | [] => false
  | '+' :: rest => !rest.isEmpty && rest.all Char.isDigit
  | '-' :: rest => !rest.isEmpty && rest.all Char.isDigit
  | l => l.all Char.isDigit

/-- The parsed bounding-box integers of a line: one value per
comma-separated field, each defaulting to zero on parse failure; empty when
the bounding box is absent. -/
def lineBBox (line : OcrLine) : List Int :=
  match line.boundingBox with
  | none => []
  | some str => (splitOnCh ',' str.data).map (fun part => atoiOrZero (String.mk part))

/-- Bounding-box component `i`, zero when missing. -/
def bbAt (l : List Int) (i : Nat) : Int :=
  l.getD i 0

/-- A line's text: words joined with one trailing space each, then
trimmed. -/
def lineWordsText (words : List String) : String :=
  trimSpace (String.mk (words.flatMap (fun w => w.data ++ [' '])))

/-- The body of the source's per-line loop: parse the bounding box, check
`len(boundingBox) >= 4`, and build the `TextLine` from the first four
values — the check counts parsed-or-defaulted fields, not successful
parses. -/
def normalizeLine (line : OcrLine) : Option TextLine :=
  let boundingBox := lineBBox line
  if 4 ≤ boundingBox.length then
    some ⟨lineWordsText line.words, bbAt boundingBox 0, bbAt boundingBox 1,
      bbAt boundingBox 2, bbAt boundingBox 3⟩
  else none

/-- Translation of `extractTextFromOCRResult`: the nested region/line loops
appending to one slice. -/
def extractTextFromOCRResult (regions : List OcrRegion) : List TextLine :=
  regions.foldl (fun acc region =>
    region.lines.foldl (fun acc2 line =>
      match normalizeLine line with
      | some t => acc2 ++ [t]
      | none => acc2) acc) []

/-- Declarative form of the normalizer output. -/
def normalizeLinesSpec (regions : List OcrRegion) : List TextLine :=
  regions.flatMap (fun region => region.lines.filterMap normalizeLine)

/-- Number of bounding-box fields whose integer parse actually succeeds. -/
def bboxParsedCount (line : OcrLine) : Nat :=
  match line.boundingBox with
  | none => 0
  | some str => ((splitOnCh ',' str.data).filter (fun part => atoiOk (String.mk part))).length

/-! ### Spec-side tier decomposition of the amount resolver

These definitions restate the documented tier structure independently of
the threaded-state implementation above; the refinement lemmas below prove
the amount component of `extractAmountFromPosition` equal to this cascade. -/

/-- First parsed amount of one keyword line: the currency-bearing patterns
in order, then the currency-free ones. -/
def lineKwParse (text : String) : Option ℚ :=
  match amtPatterns.findSome? (fun p =>
    match findGroups p.toks text with
    | some caps => parseAmount (if p.curAfter then capAt caps 0 else capAt caps 1)
    | none => none) with
  | some a => some a
  | none =>
      noCurPatterns.findSome? (fun p =>
        match findGroups p text with
        | some caps => parseAmount (capAt caps 0)
        | none => none)

/-- Tier 1: the first keyword line with a parsed match. -/
def tier1Amount (textLines : List TextLine) : Option ℚ :=
  textLines.findSome? (fun l =>
    if amountKeywordLine l.text then lineKwParse l.text else none)

/-- All parsed pattern amounts of one line, in scan order. -/
def lineZoneParses (text : String) : List ℚ :=
  (amtPatterns.filterMap (fun p =>
    match findGroups p.toks text with
    | some caps => parseAmount (if p.curAfter then capAt caps 0 else capAt caps 1)
    | none => none)) ++
  (noCurPatterns.filterMap (fun p =>
    match findGroups p text with
    | some caps => parseAmount (capAt caps 0)
    | none => none))

/-- Tier 2 candidates: every parsed amount on a line below the bottom-30%
threshold. -/
def zoneParses (textLines : List TextLine) (bottomThreshold : Int) : List ℚ :=
  textLines.flatMap (fun l => if l.y > bottomThreshold then lineZoneParses l.text else [])

/-- Tier 3 candidates: every parsed amount of the generic fallback pattern
anywhere in the document. -/
def docParses (textLines : List TextLine) : List ℚ :=
  textLines.flatMap (fun l =>
    (findAllGroups fallbackToks l.text).filterMap (fun caps =>
      parseAmount (capAt caps 1)))

/-- Running maximum starting from zero, keeping the earlier value on
ties — the source's `if amount > largest` accumulation. -/
def qmax (l : List ℚ) : ℚ :=
  l.foldl (fun acc a => if a > acc then a else acc) 0

/-- Which tokens may contribute captures, and from which character class:
used to state that every capture of the invoice-number patterns is a
nonempty run of id-characters. -/
def capOK (P : Char → Bool) : Tok → Prop
  | .grpPlus q => ∀ c, q c = true → P c = true
  | .grpCls _ => False
  | .grpAmt => False
  | .grpCur => False
  | .grpOptCls _ => False
  | .optSpCur => False
  | _ => True

/-! ### General helper lemmas -/

theorem findSome_mem {α β : Type} {l : List α} {f : α → Option β} {b : β}
    (h : l.findSome? f = some b) : ∃ a ∈ l, f a = some b := by
  induction l with
  | nil => simp [List.findSome?] at h
  | cons x xs ih =>
      cases hx : f x with
      | some v =>
          have hvb : v = b := by simpa [List.findSome?, hx] using h
          exact ⟨x, List.mem_cons_self x xs, by rw [hx, hvb]⟩
      | none =>
          have h2 : xs.findSome? f = some b := by simpa [List.findSome?, hx] using h
          obtain ⟨a, ha, hfa⟩ := ih h2
          exact ⟨a, List.mem_cons_of_mem x ha, hfa⟩

theorem foldl_rmax_le (l : List ℚ) (init : ℚ) :
    init ≤ l.foldl (fun acc a => if a > acc then a else acc) init := by
  induction l generalizing init with
  | nil => simp
  | cons x xs ih =>
      simp only [List.foldl]
      split
      · exact le_trans (le_of_lt (by assumption)) (ih x)
      · exact ih init

theorem qmax_nonneg (l : List ℚ) : 0 ≤ qmax l :=
  foldl_rmax_le l 0

theorem parseFloatQ_nonneg {s : String} {q : ℚ} (h : parseFloatQ s = some q) :
    0 ≤ q := by
  simp only [parseFloatQ] at h
  split at h
  · exact absurd h (by simp)
  · split at h
    · simp only [Option.some.injEq] at h
      subst h
      rw [Rat.mkRat_eq_div]
      positivity
    · exact absurd h (by simp)

theorem parseAmount_nonneg {s : String} {q : ℚ} (h : parseAmount s = some q) :
    0 ≤ q :=
  parseFloatQ_nonneg h

/-! ### Refinement: the amount component of the resolver equals the
documented cascade -/

theorem tryCurPatterns_fst (ps : List AmtPat) (text : String) :
    ∀ cur, (tryCurPatterns ps text cur).1 =
      ps.findSome? (fun p =>
        match findGroups p.toks text with
        | some caps =>
            parseAmount (if p.curAfter then capAt caps 0 else capAt caps 1)
        | none => none) := by
  induction ps with
  | nil => intro cur; rfl
  | cons p rest ih =>
      intro cur
      simp only [tryCurPatterns, List.findSome?]
      cases hg : findGroups p.toks text with
      | some caps =>
          simp only [hg]
          cases hp : parseAmount (if p.curAfter then capAt caps 0 else capAt caps 1) with
          | some amount => simp [hp]
          | none => simp [hp, ih]
      | none => simp only [hg]; exact ih cur

theorem tryNoCurPatterns_eq (ps : List (List Tok)) (text : String) :
    tryNoCurPatterns ps text =
      ps.findSome? (fun p =>
        match findGroups p text with
        | some caps => parseAmount (capAt caps 0)
        | none => none) := by
  induction ps with
  | nil => rfl
  | cons p rest ih =>
      simp only [tryNoCurPatterns, List.findSome?]
      cases hg : findGroups p text with
      | some caps =>
          simp only [hg]
          cases hp : parseAmount (capAt caps 0) with
          | some amount => simp [hp]
          | none => simp [hp, ih]
      | none => simp only [hg]; exact ih

theorem tier1Go_fst (textLines : List TextLine) :
    ∀ cur, ((tier1Go textLines cur).1).map Prod.fst = tier1Amount textLines := by
  induction textLines with
  | nil => intro cur; rfl
  | cons line rest ih =>
      intro cur
      simp only [tier1Go, tier1Amount, List.findSome?]
      by_cases hkw : amountKeywordLine line.text
      · simp only [hkw, if_true]
        have hcur := tryCurPatterns_fst amtPatterns line.text cur
        cases htc : tryCurPatterns amtPatterns line.text cur with
        | mk o cur1 =>
            rw [htc] at hcur
            cases o with
            | some amount =>
                simp only [lineKwParse, ← hcur]
                simp
            | none =>
                simp only [lineKwParse, ← hcur]
                simp only [Option.map]
                cases hnc : tryNoCurPatterns noCurPatterns line.text with
                | some amount =>
                    rw [tryNoCurPatterns_eq] at hnc
                    rw [hnc]
                | none =>
                    rw [tryNoCurPatterns_eq] at hnc
                    rw [hnc]
                    exact ih cur1
      · simp only [hkw, if_false]
        simpa using ih cur

theorem tier2CurStep_snd (ps : List AmtPat) (text : String) :
    ∀ cur m c, (tier2CurStep ps text (cur, m, c)).2.1 =
      (ps.filterMap (fun p =>
        match findGroups p.toks text with
        | some caps =>
            parseAmount (if p.curAfter then capAt caps 0 else capAt caps 1)
        | none => none)).foldl (fun acc a => if a > acc then a else acc) m := by
  induction ps with
  | nil => intro cur m c; rfl
  | cons p rest ih =>
      intro cur m c
      simp only [tier2CurStep, List.filterMap]
      cases hg : findGroups p.toks text with
      | some caps =>
          simp only [hg]
          cases hp : parseAmount (if p.curAfter then capAt caps 0 else capAt caps 1) with
          | some amount =>
              simp only [hp, List.foldl]
              by_cases hgt : amount > m
              · simp only [hgt, if_true]; exact ih _ _ _
              · simp only [hgt, if_false]; exact ih _ _ _
          | none => simp only [hp]; exact ih _ _ _
      | none => simp only [hg]; exact ih _ _ _

theorem tier2NoCurStep_snd (ps : List (List Tok)) (text : String) :
    ∀ cur m c, (tier2NoCurStep ps text (cur, m, c)).2.1 =
      (ps.filterMap (fun p =>
        match findGroups p text with
        | some caps => parseAmount (capAt caps 0)
        | none => none)).foldl (fun acc a => if a > acc then a else acc) m := by
  induction ps with
  | nil => intro cur m c; rfl
  | cons p rest ih =>
      intro cur m c
      simp only [tier2NoCurStep, List.filterMap]
      cases hg : findGroups p text with
      | some caps =>
          simp only [hg]
          cases hp : parseAmount (capAt caps 0) with
          | some amount =>
              simp only [hp, List.foldl]
              by_cases hgt : amount > m
              · simp only [hgt, if_true]; exact ih _ _ _
              · simp only [hgt, if_false]; exact ih _ _ _
          | none => simp only [hp]; exact ih _ _ _
      | none => simp only [hg]; exact ih _ _ _

theorem tier2Go_snd (thr : Int) (textLines : List TextLine) :
    ∀ cur m c, (tier2Go thr textLines (cur, m, c)).2.1 =
      (zoneParses textLines thr).foldl (fun acc a => if a > acc then a else acc) m := by
  have hcons : ∀ (line : TextLine) (rest : List TextLine),
      zoneParses (line :: rest) thr =
        (if line.y > thr then lineZoneParses line.text else []) ++ zoneParses rest thr :=
    fun line rest => rfl
  induction textLines with
  | nil => intro cur m c; rfl
  | cons line rest ih =>
      intro cur m c
      rw [hcons]
      by_cases hy : line.y > thr
      · rw [if_pos hy, List.foldl_append, tier2Go, if_pos hy]
        rcases h1 : tier2CurStep amtPatterns line.text (cur, m, c) with ⟨cur', m', c'⟩
        rcases h2 : tier2NoCurStep noCurPatterns line.text (cur', m', c') with ⟨cur'', m'', c''⟩
        have hm' : m' =
            (amtPatterns.filterMap (fun p =>
              match findGroups p.toks line.text with
              | some caps =>
                  parseAmount (if p.curAfter then capAt caps 0 else capAt caps 1)
              | none => none)).foldl (fun acc a => if a > acc then a else acc) m := by
          have := tier2CurStep_snd amtPatterns line.text cur m c
          rw [h1] at this
          exact this
        have hm'' : m'' =
            (noCurPatterns.filterMap (fun p =>
              match findGroups p line.text with
              | some caps => parseAmount (capAt caps 0)
              | none => none)).foldl (fun acc a => if a > acc then a else acc) m' := by
          have := tier2NoCurStep_snd noCurPatterns line.text cur' m' c'
          rw [h2] at this
          exact this
        rw [ih cur'' m'' c'', hm'', hm']
        simp only [lineZoneParses, List.foldl_append]
      · rw [if_neg hy, List.nil_append, tier2Go, if_neg hy]
        exact ih _ _ _

theorem tier3Fold_fst (text cur : String) (capsList : List (List String)) :
    ∀ m c, (capsList.foldl (tier3Match text cur) (m, c)).1 =
      (capsList.filterMap (fun caps => parseAmount (capAt caps 1))).foldl
        (fun acc a => if a > acc then a else acc) m := by
  induction capsList with
  | nil => intro m c; rfl
  | cons caps rest ih =>
      intro m c
      simp only [List.foldl, List.filterMap]
      cases hp : parseAmount (capAt caps 1) with
      | some amount =>
          simp only [tier3Match, hp, List.foldl_cons]
          by_cases hgt : amount > m
          · rw [if_pos hgt, if_pos hgt]
            exact ih _ _
          · rw [if_neg hgt, if_neg hgt]
            exact ih _ _
      | none =>
          simp only [tier3Match, hp]
          exact ih _ _

theorem tier3Go_fst (cur : String) (textLines : List TextLine) :
    ∀ m c, (tier3Go cur textLines (m, c)).1 =
      (docParses textLines).foldl (fun acc a => if a > acc then a else acc) m := by
  have hcons : ∀ (line : TextLine) (rest : List TextLine),
      docParses (line :: rest) =
        ((findAllGroups fallbackToks line.text).filterMap (fun caps =>
          parseAmount (capAt caps 1))) ++ docParses rest :=
    fun line rest => rfl
  induction textLines with
  | nil => intro m c; rfl
  | cons line rest ih =>
      intro m c
      rw [hcons, List.foldl_append, tier3Go]
      rcases h1 : (findAllGroups fallbackToks line.text).foldl (tier3Match line.text cur)
        (m, c) with ⟨m', c'⟩
      have hm' : m' = ((findAllGroups fallbackToks line.text).filterMap (fun caps =>
          parseAmount (capAt caps 1))).foldl (fun acc a => if a > acc then a else acc) m := by
        have := tier3Fold_fst line.text cur (findAllGroups fallbackToks line.text) m c
        rw [h1] at this
        exact this
      rw [ih m' c', hm']

theorem extractAmountCore_fst (docCur : String) (textLines : List TextLine) :
    (extractAmountCore docCur textLines).1 =
      match tier1Amount textLines with
      | some a => a
      | none =>
          if qmax (zoneParses textLines (maxYOf textLines * 7 / 10)) > 0 then
            qmax (zoneParses textLines (maxYOf textLines * 7 / 10))
          else if qmax (docParses textLines) > 0 then qmax (docParses textLines)
          else 0 := by
  simp only [extractAmountCore]
  have ht1 := tier1Go_fst textLines (if docCur != "" then docCur else "EUR")
  rcases h1 : tier1Go textLines (if docCur != "" then docCur else "EUR") with ⟨o, cur1⟩
  rw [h1] at ht1
  cases o with
  | some r =>
      rw [← ht1]
      rfl
  | none =>
      rw [← ht1]
      simp only [Option.map_none']
      rcases h2 : tier2Go (maxYOf textLines * 7 / 10) textLines (cur1, 0, "") with
        ⟨cur2, la, lac⟩
      have hla := tier2Go_snd (maxYOf textLines * 7 / 10) textLines cur1 0 ""
      rw [h2] at hla
      have hlaq : la = qmax (zoneParses textLines (maxYOf textLines * 7 / 10)) := hla
      by_cases hpos : la > 0
      · rw [if_pos hpos, ← hlaq, if_pos hpos]
      · rw [if_neg hpos, ← hlaq, if_neg hpos]
        rcases h3 : tier3Go cur2 textLines (0, "") with ⟨ld, ldc⟩
        have hld := tier3Go_fst cur2 textLines 0 ""
        rw [h3] at hld
        have hldq : ld = qmax (docParses textLines) := hld
        by_cases hpos2 : ld > 0
        · rw [if_pos hpos2, ← hldq, if_pos hpos2]
        · rw [if_neg hpos2, ← hldq, if_neg hpos2]

/-! ### Claim theorems -/

theorem lineKwParse_nonneg {text : String} {a : ℚ} (h : lineKwParse text = some a) :
    0 ≤ a := by
  unfold lineKwParse at h
  cases hm : amtPatterns.findSome? (fun p =>
      match findGroups p.toks text with
      | some caps => parseAmount (if p.curAfter then capAt caps 0 else capAt caps 1)
      | none => none) with
  | some a' =>
      rw [hm] at h
      simp only [Option.some.injEq] at h
      subst h
      obtain ⟨p, _, hp⟩ := findSome_mem hm
      cases hg : findGroups p.toks text with
      | some caps =>
          rw [hg] at hp
          exact parseAmount_nonneg hp
      | none => rw [hg] at hp; exact absurd hp (by simp)
  | none =>
      rw [hm] at h
      obtain ⟨p, _, hp⟩ := findSome_mem h
      cases hg : findGroups p text with
      | some caps =>
          rw [hg] at hp
          exact parseAmount_nonneg hp
      | none => rw [hg] at hp; exact absurd hp (by simp)

theorem detect_nil (ord : List String) : detectDocumentCurrency ord [] = "EUR" := by
  have hs : ∀ k, currencyScore [] k = 0 := by
    intro k
    unfold currencyScore usdScore eurScore gbpScore
    split_ifs <;> rfl
  have main : ∀ (l : List String),
      (l.foldl (fun (st : Nat × String) k =>
        if currencyScore [] k > st.1 then (currencyScore [] k, k) else st) (0, "EUR")) =
        (0, "EUR") := by
    intro l
    induction l with
    | nil => rfl
    | cons k rest ih =>
        simp only [List.foldl, hs k]
        simpa using ih
  unfold detectDocumentCurrency
  rw [main]

/-! ### Capture invariants of the invoice-number patterns -/

theorem downTo_mem {hi lo k : Nat} (h : k ∈ downTo hi lo) : lo ≤ k ∧ k ≤ hi := by
  unfold downTo at h
  obtain ⟨j, hj, rfl⟩ := List.mem_map.mp h
  rw [List.mem_range] at hj
  omega

theorem take_of_leadRun {p : Char → Bool} : ∀ {s : List Char} {k : Nat},
    k ≤ leadRun p s → ∀ c ∈ s.take k, p c = true := by
  intro s
  induction s with
  | nil => intro k _ c hc; simp at hc
  | cons a rest ih =>
      intro k hk c hc
      cases k with
      | zero => simp at hc
      | succ k' =>
          by_cases hp : p a
          · rw [List.take_succ_cons] at hc
            rcases List.mem_cons.mp hc with rfl | hc'
            · exact hp
            · have hk' : k' ≤ leadRun p rest := by
                have : leadRun p (a :: rest) = leadRun p rest + 1 := by
                  simp [leadRun, List.takeWhile, hp]
                omega
              exact ih hk' c hc'
          · exfalso
            have : leadRun p (a :: rest) = 0 := by
              simp [leadRun, List.takeWhile, hp]
            omega

theorem cand_caps {P : Char → Bool} {t : Tok} (ht : capOK P t) {s : List Char}
    {kc : Nat × List String} (hm : kc ∈ cand t s) :
    ∀ str ∈ kc.2, str.data ≠ [] ∧ ∀ c ∈ str.data, P c = true := by
  cases t with
  | grpPlus q =>
      simp only [cand] at hm
      obtain ⟨k, hk, rfl⟩ := List.mem_map.mp hm
      obtain ⟨hk1, hk2⟩ := downTo_mem hk
      intro str hstr
      rcases List.mem_singleton.mp hstr with rfl
      constructor
      · intro hnil
        have htk : s.take k = [] := hnil
        rcases List.take_eq_nil_iff.mp htk with h0 | h0
        · omega
        · have : leadRun q s = 0 := by simp [leadRun, h0]
          omega
      · intro c hc
        exact ht c (take_of_leadRun hk2 c hc)
  | grpCls q =>
      exact absurd ht (by simp [capOK])
  | grpAmt => exact absurd ht (by simp [capOK])
  | grpCur => exact absurd ht (by simp [capOK])
  | grpOptCls q => exact absurd ht (by simp [capOK])
  | optSpCur => exact absurd ht (by simp [capOK])
  | lit w =>
      simp only [cand] at hm
      split at hm
      · rcases List.mem_singleton.mp hm with rfl
        intro str hstr
        simp at hstr
      · simp at hm
  | cls q =>
      simp only [cand] at hm
      split at hm
      · split at hm
        · rcases List.mem_singleton.mp hm with rfl
          intro str hstr
          simp at hstr
        · simp at hm
      · simp at hm
  | star q =>
      simp only [cand] at hm
      obtain ⟨k, _, rfl⟩ := List.mem_map.mp hm
      intro str hstr
      simp at hstr
  | plus q =>
      simp only [cand] at hm
      obtain ⟨k, _, rfl⟩ := List.mem_map.mp hm
      intro str hstr
      simp at hstr
  | rep q lo hi =>
      simp only [cand] at hm
      obtain ⟨k, _, rfl⟩ := List.mem_map.mp hm
      intro str hstr
      simp at hstr
  | opt q =>
      simp only [cand] at hm
      split at hm
      · split at hm <;>
        · rcases List.mem_cons.mp hm with rfl | hm2
          · intro str hstr; simp at hstr
          · first
              | (rcases List.mem_singleton.mp hm2 with rfl;
                  intro str hstr; simp at hstr)
              | simp at hm2
      · rcases List.mem_singleton.mp hm with rfl
        intro str hstr
        simp at hstr
  | alts ws =>
      simp only [cand] at hm
      obtain ⟨w, _, hw⟩ := List.mem_filterMap.mp hm
      split at hw
      · injection hw with h2
        subst h2
        intro str hstr
        simp at hstr
      · simp at hw

theorem runSeq_caps {P : Char → Bool} : ∀ {toks : List Tok},
    (∀ t ∈ toks, capOK P t) → ∀ {s : List Char} {n : Nat} {caps : List String},
    runSeq toks s = some (n, caps) →
    ∀ str ∈ caps, str.data ≠ [] ∧ ∀ c ∈ str.data, P c = true := by
  intro toks
  induction toks with
  | nil =>
      intro _ s n caps h str hstr
      simp only [runSeq, Option.some.injEq, Prod.mk.injEq] at h
      obtain ⟨-, h2⟩ := h
      rw [← h2] at hstr
      simp at hstr
  | cons t ts ih =>
      intro htoks s n caps h str hstr
      simp only [runSeq] at h
      obtain ⟨kc, hkcmem, hkc⟩ := findSome_mem h
      cases hrs : runSeq ts (s.drop kc.1) with
      | none => rw [hrs] at hkc; simp at hkc
      | some res =>
          rw [hrs] at hkc
          simp only [Option.map_some', Option.some.injEq] at hkc
          have hcaps : caps = kc.2 ++ res.2 := by
            have := congrArg Prod.snd hkc
            simpa using this.symm
          rw [hcaps] at hstr
          rcases List.mem_append.mp hstr with h1 | h2
          · exact cand_caps (htoks t (List.mem_cons_self t ts)) hkcmem str h1
          · exact ih (fun t' ht' => htoks t' (List.mem_cons_of_mem t ht'))
              hrs str h2

theorem seek_caps {P : Char → Bool} {toks : List Tok}
    (htoks : ∀ t ∈ toks, capOK P t) : ∀ {s : List Char} {i n : Nat}
    {caps : List String}, seek toks s = some (i, n, caps) →
    ∀ str ∈ caps, str.data ≠ [] ∧ ∀ c ∈ str.data, P c = true := by
  intro s
  induction s with
  | nil =>
      intro i n caps h
      simp only [seek] at h
      cases hrs : runSeq toks [] with
      | none => rw [hrs] at h; simp at h
      | some r =>
          rw [hrs] at h
          rcases r with ⟨n', caps'⟩
          simp only [Option.some.injEq] at h
          have : caps' = caps := by
            have := congrArg (fun x => x.2.2) h
            simpa using this
          rw [← this]
          exact runSeq_caps htoks hrs
  | cons c cs ih =>
      intro i n caps h
      simp only [seek] at h
      cases hrs : runSeq toks (c :: cs) with
      | none =>
          rw [hrs] at h
          cases hsk : seek toks cs with
          | none => rw [hsk] at h; simp at h
          | some r =>
              rw [hsk] at h
              rcases r with ⟨i', n', caps'⟩
              simp only [Option.map_some', Option.some.injEq] at h
              have : caps' = caps := by
                have := congrArg (fun x => x.2.2) h
                simpa using this
              rw [← this]
              exact ih hsk
      | some r =>
          rw [hrs] at h
          rcases r with ⟨n', caps'⟩
          simp only [Option.some.injEq] at h
          have : caps' = caps := by
            have := congrArg (fun x => x.2.2) h
            simpa using this
          rw [← this]
          exact runSeq_caps htoks hrs

theorem findGroups_caps {P : Char → Bool} {toks : List Tok}
    (htoks : ∀ t ∈ toks, capOK P t) {text : String} {caps : List String}
    (h : findGroups toks text = some caps) :
    ∀ str ∈ caps, str.data ≠ [] ∧ ∀ c ∈ str.data, P c = true := by
  unfold findGroups at h
  cases hsk : seek toks text.data with
  | none => rw [hsk] at h; simp at h
  | some r =>
      rw [hsk] at h
      rcases r with ⟨i, n, caps'⟩
      simp only [Option.map_some', Option.some.injEq] at h
      rw [← h]
      exact seek_caps htoks hsk

theorem idCls_not_space {c : Char} (h : idCls c = true) : isGoSpace c = false := by
  by_contra hc
  rw [Bool.not_eq_false] at hc
  have h6 : c = ' ' ∨ c = '\t' ∨ c = '\n' ∨ c = '\r' ∨ c = '\x0b' ∨ c = '\x0c' := by
    simpa [isGoSpace, or_assoc] using hc
  rcases h6 with rfl | rfl | rfl | rfl | rfl | rfl <;> exact absurd h (by decide)

theorem dropWhile_of_none {p : Char → Bool} {l : List Char}
    (h : ∀ c ∈ l, p c = false) : l.dropWhile p = l := by
  cases l with
  | nil => rfl
  | cons a rest =>
      rw [List.dropWhile_cons, h a (List.mem_cons_self a rest)]
      simp

theorem trimSpace_of_idCls {str : String} (h : ∀ c ∈ str.data, idCls c = true) :
    trimSpace str = str := by
  have hall : ∀ c ∈ str.data, isGoSpace c = false :=
    fun c hc => idCls_not_space (h c hc)
  unfold trimSpace
  rw [dropWhile_of_none hall, dropWhile_of_none (fun c hc =>
    hall c (List.mem_reverse.mp hc)), List.reverse_reverse]

theorem invoicePatterns_capOK :
    ∀ p ∈ invoicePatterns, ∀ t ∈ p, capOK idCls t := by
  intro p hp
  fin_cases hp <;>
    · intro t ht
      fin_cases ht <;> first | trivial | exact fun c hc => hc

theorem tryPatterns_inv {text : String} {r : String}
    (h : tryPatterns text = some r) :
    2 ≤ r.length ∧ ∀ c ∈ r.data, idCls c = true := by
  obtain ⟨p, hpmem, hp⟩ := findSome_mem h
  cases hg : findGroups p text with
  | none => rw [hg] at hp; exact absurd hp (by simp)
  | some caps =>
      rw [hg] at hp
      simp only at hp
      split at hp
      · simp only [Option.some.injEq] at hp
        subst hp
        rename_i hlen
        cases caps with
        | nil => exact absurd hlen (by decide)
        | cons c0 rest =>
            have hc0 := findGroups_caps (invoicePatterns_capOK p hpmem) hg c0
              (List.mem_cons_self c0 rest)
            have hcap : capAt (c0 :: rest) 0 = c0 := rfl
            rw [hcap] at hlen ⊢
            rw [trimSpace_of_idCls hc0.2] at hlen ⊢
            exact ⟨hlen, hc0.2⟩
      · exact absurd hp (by simp)

theorem alnumRunsF_inv : ∀ (fuel : Nat) (l : List Char) (r : String),
    r ∈ alnumRunsF fuel l → 3 ≤ r.length ∧ ∀ c ∈ r.data, idCls c = true := by
  intro fuel
  induction fuel with
  | zero => intro l r hr; simp [alnumRunsF] at hr
  | succ fuel ih =>
      intro l r hr
      cases l with
      | nil => simp [alnumRunsF] at hr
      | cons c rest =>
          simp only [alnumRunsF] at hr
          by_cases hc : isAlnumCh c
          · rw [if_pos hc] at hr
            by_cases hrun : 2 ≤ (rest.takeWhile idCls).length
            · rw [if_pos hrun] at hr
              rcases List.mem_cons.mp hr with rfl | hr2
              · constructor
                · have hl : (String.mk (c :: rest.takeWhile idCls)).length =
                      (rest.takeWhile idCls).length + 1 := by
                    simp [String.length]
                  omega
                · intro ch hch
                  rcases List.mem_cons.mp hch with rfl | hch2
                  · simp [idCls, hc]
                  · exact List.mem_takeWhile_imp hch2
              · exact ih _ r hr2
            · rw [if_neg hrun] at hr
              exact ih _ r hr
          · rw [if_neg hc] at hr
            exact ih _ r hr

theorem keywordSeqFallback_inv {text : String} {r : String}
    (h : keywordSeqFallback text = some r) :
    2 ≤ r.length ∧ ∀ c ∈ r.data, idCls c = true := by
  obtain ⟨m, hmmem, hm⟩ := findSome_mem h
  simp only at hm
  split at hm
  · simp only [Option.some.injEq] at hm
    subst hm
    have := alnumRunsF_inv _ _ _ hmmem
    exact ⟨by omega, this.2⟩
  · exact absurd hm (by simp)

theorem invTier1_inv {textLines : List TextLine} {r : String}
    (h : invTier1 textLines = some r) :
    2 ≤ r.length ∧ ∀ c ∈ r.data, idCls c = true := by
  obtain ⟨line, _, hline⟩ := findSome_mem h
  split at hline
  · split at hline
    · cases ht : tryPatterns line.text with
      | some r' =>
          rw [ht] at hline
          have hr : r' = r := by simpa [Option.orElse] using hline
          subst hr
          exact tryPatterns_inv ht
      | none =>
          rw [ht] at hline
          have hr : keywordSeqFallback line.text = some r := by
            simpa [Option.orElse] using hline
          exact keywordSeqFallback_inv hr
    · exact absurd hline (by simp)
  · exact absurd hline (by simp)

theorem invTier2_inv {textLines : List TextLine} {r : String}
    (h : invTier2 textLines = some r) :
    2 ≤ r.length ∧ ∀ c ∈ r.data, idCls c = true := by
  obtain ⟨line, _, hline⟩ := findSome_mem h
  split at hline
  · exact tryPatterns_inv hline
  · exact absurd hline (by simp)

theorem invTier3_inv {textLines : List TextLine} {r : String}
    (h : invTier3 textLines = some r) :
    2 ≤ r.length ∧ ∀ c ∈ r.data, idCls c = true := by
  obtain ⟨line, _, hline⟩ := findSome_mem h
  split at hline
  · exact tryPatterns_inv hline
  · exact absurd hline (by simp)

theorem invTier4_inv {textLines : List TextLine} {r : String}
    (h : invTier4 textLines = some r) :
    2 ≤ r.length ∧ ∀ c ∈ r.data, idCls c = true := by
  obtain ⟨line, _, hline⟩ := findSome_mem h
  exact tryPatterns_inv hline

theorem invNumber_inv (textLines : List TextLine) :
    extractInvoiceNumberFromPosition textLines = "UNKNOWN" ∨
    (2 ≤ (extractInvoiceNumberFromPosition textLines).length ∧
      ∀ c ∈ (extractInvoiceNumberFromPosition textLines).data, idCls c = true) := by
  unfold extractInvoiceNumberFromPosition
  cases h1 : invTier1 textLines with
  | some r => right; simpa [Option.orElse] using invTier1_inv h1
  | none =>
      cases h2 : invTier2 textLines with
      | some r => right; simpa [Option.orElse] using invTier2_inv h2
      | none =>
          cases h3 : invTier3 textLines with
          | some r => right; simpa [Option.orElse] using invTier3_inv h3
          | none =>
              cases h4 : invTier4 textLines with
              | some r => right; simpa [Option.orElse] using invTier4_inv h4
              | none => left; simp [Option.orElse]

/-! ### The randomized currency-map iteration: permutation analysis -/

theorem perm3_cases {l : List String} (h : l.Perm currencyKeys) :
    l = ["USD", "EUR", "GBP"] ∨ l = ["USD", "GBP", "EUR"] ∨
    l = ["EUR", "USD", "GBP"] ∨ l = ["EUR", "GBP", "USD"] ∨
    l = ["GBP", "USD", "EUR"] ∨ l = ["GBP", "EUR", "USD"] := by
  have hlen : l.length = 3 := h.length_eq
  have hnodup : l.Nodup := h.nodup_iff.mpr (by decide)
  rcases l with _ | ⟨a, l⟩
  · simp at hlen
  rcases l with _ | ⟨b, l⟩
  · simp at hlen
  rcases l with _ | ⟨c, l⟩
  · simp at hlen
  rcases l with _ | ⟨d, l⟩
  · have ha : a ∈ currencyKeys := h.mem_iff.mp (by simp)
    have hb : b ∈ currencyKeys := h.mem_iff.mp (by simp)
    have hc : c ∈ currencyKeys := h.mem_iff.mp (by simp)
    simp only [currencyKeys, List.mem_cons, List.mem_singleton,
      List.not_mem_nil, or_false] at ha hb hc
    rcases ha with rfl | rfl | rfl <;> rcases hb with rfl | rfl | rfl <;>
      rcases hc with rfl | rfl | rfl <;>
      first
        | decide
        | exact absurd hnodup (by decide)
  · simp at hlen

theorem currencyScore_usd (textLines : List TextLine) :
    currencyScore textLines "USD" = usdScore textLines := rfl

theorem currencyScore_eur (textLines : List TextLine) :
    currencyScore textLines "EUR" = eurScore textLines := rfl

theorem currencyScore_gbp (textLines : List TextLine) :
    currencyScore textLines "GBP" = gbpScore textLines := rfl

theorem detect_spec (textLines : List TextLine) {ord : List String}
    (h : ord.Perm currencyKeys) :
    ((usdScore textLines = 0 ∧ eurScore textLines = 0 ∧ gbpScore textLines = 0) →
      detectDocumentCurrency ord textLines = "EUR") ∧
    ((usdScore textLines > eurScore textLines ∧
        usdScore textLines > gbpScore textLines) →
      detectDocumentCurrency ord textLines = "USD") ∧
    ((eurScore textLines > usdScore textLines ∧
        eurScore textLines > gbpScore textLines) →
      detectDocumentCurrency ord textLines = "EUR") ∧
    ((gbpScore textLines > usdScore textLines ∧
        gbpScore textLines > eurScore textLines) →
      detectDocumentCurrency ord textLines = "GBP") := by
  rcases perm3_cases h with rfl | rfl | rfl | rfl | rfl | rfl <;>
  · unfold detectDocumentCurrency
    simp only [List.foldl, currencyScore_usd, currencyScore_eur, currencyScore_gbp]
    refine ⟨fun hz => ?_, fun hu => ?_, fun he => ?_, fun hg => ?_⟩ <;>
      split_ifs <;> first | rfl | omega

theorem foldl_add2 (f g : TextLine → Nat) (l : List TextLine) : ∀ init,
    l.foldl (fun n t => n + f t + g t) init =
      init + (l.map (fun t => f t + g t)).sum := by
  induction l with
  | nil => intro init; simp
  | cons t rest ih =>
      intro init
      simp only [List.foldl, List.map, List.sum_cons, ih]
      omega

theorem usdScore_perm {l₁ l₂ : List TextLine} (h : l₁.Perm l₂) :
    usdScore l₁ = usdScore l₂ := by
  unfold usdScore
  rw [foldl_add2, foldl_add2]
  exact congrArg _ ((h.map _).sum_eq)

theorem eurScore_perm {l₁ l₂ : List TextLine} (h : l₁.Perm l₂) :
    eurScore l₁ = eurScore l₂ := by
  unfold eurScore
  rw [foldl_add2, foldl_add2]
  exact congrArg _ ((h.map _).sum_eq)

theorem gbpScore_perm {l₁ l₂ : List TextLine} (h : l₁.Perm l₂) :
    gbpScore l₁ = gbpScore l₂ := by
  unfold gbpScore
  rw [foldl_add2, foldl_add2]
  exact congrArg _ ((h.map _).sum_eq)

theorem detect_deterministic {textLines : List TextLine} {o1 o2 : List String}
    (h1 : o1.Perm currencyKeys) (h2 : o2.Perm currencyKeys)
    (hscore :
      (usdScore textLines = 0 ∧ eurScore textLines = 0 ∧ gbpScore textLines = 0) ∨
      (usdScore textLines > eurScore textLines ∧
        usdScore textLines > gbpScore textLines) ∨
      (eurScore textLines > usdScore textLines ∧
        eurScore textLines > gbpScore textLines) ∨
      (gbpScore textLines > usdScore textLines ∧
        gbpScore textLines > eurScore textLines)) :
    detectDocumentCurrency o1 textLines = detectDocumentCurrency o2 textLines := by
  rcases hscore with hz | hu | he | hg
  · rw [(detect_spec textLines h1).1 hz, (detect_spec textLines h2).1 hz]
  · rw [(detect_spec textLines h1).2.1 hu, (detect_spec textLines h2).2.1 hu]
  · rw [(detect_spec textLines h1).2.2.1 he, (detect_spec textLines h2).2.2.1 he]
  · rw [(detect_spec textLines h1).2.2.2 hg, (detect_spec textLines h2).2.2.2 hg]

/-- C1: the documented separator rules demand `parseAmount "1.234,56" =
1234.56`, `parseAmount "1,234.56" = 1234.56`, `parseAmount "1234,56" =
1234.56` (note `mkRat 123456 100 = 1234.56`), with the digits after a
single comma kept as the fractional part.  The code instead discards
everything from the comma on in its one-comma branch (the
`processedStr[:lastCommaIndex]` reassignment), so those three inputs
evaluate to `1234`, `1`, and `1234`; only the comma-free cases
`"1234.56"` and `"12.34.56"` behave as documented. -/
theorem c1_parseAmount_fraction_dropped :
    parseAmount "1.234,56" = some 1234 ∧
    parseAmount "1.234,56" ≠ some (mkRat 123456 100) ∧
    parseAmount "1,234.56" = some 1 ∧
    parseAmount "1234,56" = some 1234 ∧
    parseAmount "1234.56" = some (mkRat 123456 100) ∧
    parseAmount "12.34.56" = some (mkRat 123456 100) := by
  refine ⟨by decide, by decide, by decide, by decide, by decide, by decide⟩

/-- C3: on the empty line list every resolver degrades to its sentinel —
the record is `("UNKNOWN", "UNKNOWN", 0, "EUR", "UNKNOWN")` for every map
iteration order, and all resolvers are total functions (no panic can be
modelled to occur). -/
theorem c3_empty_sentinels (ord : List String) :
    parseInvoiceTextWithPosition ord [] =
      ⟨"UNKNOWN", "UNKNOWN", 0, "EUR", "UNKNOWN"⟩ := by
  have h : parseInvoiceTextWithPosition ord [] =
      parseInvoiceTextWithPosition ["USD", "EUR", "GBP"] [] := by
    unfold parseInvoiceTextWithPosition parseInvoiceTextWithPositionOrds
      sortedByY extractAmountFromPosition
    simp only [List.insertionSort]
    rw [detect_nil, detect_nil]
  rw [h]
  decide

/-- C5 (amended): the claim's strict tier priority holds with one
correction — a later tier is reached not when the previous one "yields
nothing" but when it yields no *strictly positive* amount.  The amount
returned is: the first parsed match on a keyword line; else the running
maximum (first-encountered wins ties, floor zero) over all bottom-30%-zone
matches if positive; else the same maximum over the whole-document fallback
matches if positive; else zero.  A zone whose only parsed matches are `0.00`
is skipped, as the counterexample shows, contradicting the claim as
stated. -/
theorem c5_amount_tier_cascade (ord : List String) (textLines : List TextLine) :
    (extractAmountFromPosition ord textLines).1 =
      match tier1Amount textLines with
      | some a => a
      | none =>
          if qmax (zoneParses textLines (maxYOf textLines * 7 / 10)) > 0 then
            qmax (zoneParses textLines (maxYOf textLines * 7 / 10))
          else if qmax (docParses textLines) > 0 then qmax (docParses textLines)
          else 0 :=
  extractAmountCore_fst (detectDocumentCurrency ord textLines) textLines

/-- C5 counterexample: with a bottom-zone line `"€0,00"` (at y = 95 of 95)
and a line `"€5.00"` outside the zone, the zone *does* yield a successfully
parsed match (value 0), yet the resolver does not return the zone's largest
parsed amount — it falls through and returns 5 from the whole-document
tier, so "only if that zone yields nothing does it return the largest
decimal value found anywhere" is false as stated. -/
theorem c5_zone_zero_counterexample :
    zoneParses [⟨"€0,00", 0, 95, 0, 0⟩, ⟨"€5.00", 0, 10, 0, 0⟩]
        (maxYOf [⟨"€0,00", 0, 95, 0, 0⟩, ⟨"€5.00", 0, 10, 0, 0⟩] * 7 / 10) = [0] ∧
      extractAmountFromPosition ["USD", "EUR", "GBP"]
        [⟨"€0,00", 0, 95, 0, 0⟩, ⟨"€5.00", 0, 10, 0, 0⟩] = (5, "EUR") :=
  ⟨by decide, by decide⟩

/-- C9: whichever tier produces the result, the returned total amount is
non-negative: keyword-tier amounts come from `parseAmount`, whose values
are quotients of digit strings, and the other tiers return running maxima
floored at zero. -/
theorem c9_amount_nonneg (ord : List String) (textLines : List TextLine) :
    0 ≤ (extractAmountFromPosition ord textLines).1 := by
  have hc := extractAmountCore_fst (detectDocumentCurrency ord textLines) textLines
  rw [show extractAmountFromPosition ord textLines =
    extractAmountCore (detectDocumentCurrency ord textLines) textLines from rfl, hc]
  cases h : tier1Amount textLines with
  | some a =>
      obtain ⟨l, _, hfl⟩ := findSome_mem h
      by_cases hk : amountKeywordLine l.text
      · rw [if_pos hk] at hfl
        exact lineKwParse_nonneg hfl
      · rw [if_neg hk] at hfl
        exact absurd hfl (by simp)
  | none =>
      dsimp only
      split
      · exact qmax_nonneg _
      · split
        · exact qmax_nonneg _
        · exact le_refl 0

/-- C4 (amended): the detector returns the currency whose weighted count —
as implemented, the symbol check and the word check of a line each add
their weight independently — strictly exceeds the others', and EUR when
all counts are zero; when the maximum is tied between distinct currencies,
the winner is whichever tied currency the randomized map iteration visits
first, not necessarily EUR. -/
theorem c4_detect_characterization (textLines : List TextLine) (ord : List String)
    (h : ord.Perm currencyKeys) :
    ((usdScore textLines = 0 ∧ eurScore textLines = 0 ∧ gbpScore textLines = 0) →
      detectDocumentCurrency ord textLines = "EUR") ∧
    ((usdScore textLines > eurScore textLines ∧
        usdScore textLines > gbpScore textLines) →
      detectDocumentCurrency ord textLines = "USD") ∧
    ((eurScore textLines > usdScore textLines ∧
        eurScore textLines > gbpScore textLines) →
      detectDocumentCurrency ord textLines = "EUR") ∧
    ((gbpScore textLines > usdScore textLines ∧
        gbpScore textLines > eurScore textLines) →
      detectDocumentCurrency ord textLines = "GBP") :=
  detect_spec textLines h

/-- C4 witness: a line containing both `€` and `usd` weighs EUR 2 against
USD 1, so even an iteration order visiting GBP and USD first returns EUR. -/
theorem c4_detect_characterization_witness :
    detectDocumentCurrency ["GBP", "USD", "EUR"] [⟨"€ 12 usd", 0, 0, 0, 0⟩] = "EUR" :=
  (c4_detect_characterization [⟨"€ 12 usd", 0, 0, 0, 0⟩] ["GBP", "USD", "EUR"]
    (by decide)).2.2.1 ⟨by decide, by decide⟩

/-- C4 counterexample: `"usd gbp"` ties USD and GBP at weighted count one
(EUR at zero); under the legitimate iteration order GBP, USD, EUR the
detector returns GBP — not EUR as the claim's tie rule demands. -/
theorem c4_tie_counterexample :
    (["GBP", "USD", "EUR"].Perm currencyKeys) ∧
    usdScore [⟨"usd gbp", 0, 0, 0, 0⟩] = 1 ∧
    gbpScore [⟨"usd gbp", 0, 0, 0, 0⟩] = 1 ∧
    eurScore [⟨"usd gbp", 0, 0, 0, 0⟩] = 0 ∧
    detectDocumentCurrency ["GBP", "USD", "EUR"] [⟨"usd gbp", 0, 0, 0, 0⟩] = "GBP" :=
  ⟨by decide, by decide, by decide, by decide, by decide⟩

/-- C2: on the four-line scenario the engine returns vendor `"Acme Corp"`
(domain cross-reference) and invoice number `"4521"` and currency `"EUR"`
as claimed, but the total amount is `1234`, not the claimed `1234.50`:
tier 1 matches `Total: €1.234,50` and `parseAmount "1.234,50"` drops the
fractional part (the C1 slip).  Proved for every map iteration order, EUR's
weighted count being uniquely maximal here. -/
theorem c2_end_to_end (ord : List String) (h : ord.Perm currencyKeys) :
    parseInvoiceTextWithPosition ord
      [⟨"INVOICE #4521", 600, 50, 0, 0⟩, ⟨"Acme Corp", 50, 40, 0, 0⟩,
       ⟨"www.acmecorp.com", 50, 600, 0, 0⟩, ⟨"Total: €1.234,50", 50, 900, 0, 0⟩] =
      ⟨"4521", "UNKNOWN", 1234, "EUR", "Acme Corp"⟩ := by
  have hdet : detectDocumentCurrency ord
      (List.insertionSort (fun a b => a.y ≤ b.y)
        [⟨"INVOICE #4521", 600, 50, 0, 0⟩, ⟨"Acme Corp", 50, 40, 0, 0⟩,
         ⟨"www.acmecorp.com", 50, 600, 0, 0⟩, ⟨"Total: €1.234,50", 50, 900, 0, 0⟩]) =
      "EUR" :=
    (detect_spec _ h).2.2.1 ⟨by decide, by decide⟩
  simp only [parseInvoiceTextWithPosition, parseInvoiceTextWithPositionOrds,
    sortedByY, extractAmountFromPosition]
  rw [hdet]
  decide

/-- C2 witness: the end-to-end record at the identity iteration order. -/
theorem c2_end_to_end_witness :
    parseInvoiceTextWithPosition ["USD", "EUR", "GBP"]
      [⟨"INVOICE #4521", 600, 50, 0, 0⟩, ⟨"Acme Corp", 50, 40, 0, 0⟩,
       ⟨"www.acmecorp.com", 50, 600, 0, 0⟩, ⟨"Total: €1.234,50", 50, 900, 0, 0⟩] =
      ⟨"4521", "UNKNOWN", 1234, "EUR", "Acme Corp"⟩ :=
  c2_end_to_end ["USD", "EUR", "GBP"] (by decide)

/-- C8 (amended): two invocations of the engine on the same line list
produce identical records provided (i) the weighted currency counts have a
strict unique maximum or are all zero and (ii) the document's collected
website/email domains deduplicate to at most one distinct domain.  Both the
currency-count map and vendor strategy 4's domain set are Go maps iterated
in a per-run randomized order, modelled by the explicit orders `o1, o2`
(permutations of the currency keys) and `v1, v2` (permutations of the
deduplicated domain pool); a currency-count tie, or several distinct
domains whose synthesized names tie in length, can each make two runs
differ — the counterexample exhibits both. -/
theorem c8_engine_deterministic (textLines : List TextLine)
    (o1 o2 v1 v2 : List String)
    (h1 : o1.Perm currencyKeys) (h2 : o2.Perm currencyKeys)
    (hv1 : v1.Perm (dedupKeepFirst (vendorAllDomains (sortedByY textLines))))
    (hv2 : v2.Perm (dedupKeepFirst (vendorAllDomains (sortedByY textLines))))
    (hdom : (dedupKeepFirst (vendorAllDomains (sortedByY textLines))).length ≤ 1)
    (hscore :
      (usdScore textLines = 0 ∧ eurScore textLines = 0 ∧ gbpScore textLines = 0) ∨
      (usdScore textLines > eurScore textLines ∧
        usdScore textLines > gbpScore textLines) ∨
      (eurScore textLines > usdScore textLines ∧
        eurScore textLines > gbpScore textLines) ∨
      (gbpScore textLines > usdScore textLines ∧
        gbpScore textLines > eurScore textLines)) :
    parseInvoiceTextWithPositionOrds o1 v1 textLines =
      parseInvoiceTextWithPositionOrds o2 v2 textLines := by
  have hveq : v1 = v2 := by
    cases hdd : dedupKeepFirst (vendorAllDomains (sortedByY textLines)) with
    | nil =>
        rw [hdd] at hv1 hv2
        exact (List.perm_nil.mp hv1).trans (List.perm_nil.mp hv2).symm
    | cons d rest =>
        cases rest with
        | nil =>
            rw [hdd] at hv1 hv2
            exact (List.perm_singleton.mp hv1).trans
              (List.perm_singleton.mp hv2).symm
        | cons e rest2 =>
            rw [hdd] at hdom
            simp only [List.length_cons] at hdom
            omega
  subst hveq
  have hperm : (List.insertionSort (fun a b : TextLine => a.y ≤ b.y) textLines).Perm
      textLines := List.perm_insertionSort _ _
  have hscore' :
      (usdScore (List.insertionSort (fun a b : TextLine => a.y ≤ b.y) textLines) = 0 ∧
        eurScore (List.insertionSort (fun a b : TextLine => a.y ≤ b.y) textLines) = 0 ∧
        gbpScore (List.insertionSort (fun a b : TextLine => a.y ≤ b.y) textLines) = 0) ∨
      (usdScore (List.insertionSort (fun a b : TextLine => a.y ≤ b.y) textLines) >
          eurScore (List.insertionSort (fun a b : TextLine => a.y ≤ b.y) textLines) ∧
        usdScore (List.insertionSort (fun a b : TextLine => a.y ≤ b.y) textLines) >
          gbpScore (List.insertionSort (fun a b : TextLine => a.y ≤ b.y) textLines)) ∨
      (eurScore (List.insertionSort (fun a b : TextLine => a.y ≤ b.y) textLines) >
          usdScore (List.insertionSort (fun a b : TextLine => a.y ≤ b.y) textLines) ∧
        eurScore (List.insertionSort (fun a b : TextLine => a.y ≤ b.y) textLines) >
          gbpScore (List.insertionSort (fun a b : TextLine => a.y ≤ b.y) textLines)) ∨
      (gbpScore (List.insertionSort (fun a b : TextLine => a.y ≤ b.y) textLines) >
          usdScore (List.insertionSort (fun a b : TextLine => a.y ≤ b.y) textLines) ∧
        gbpScore (List.insertionSort (fun a b : TextLine => a.y ≤ b.y) textLines) >
          eurScore (List.insertionSort (fun a b : TextLine => a.y ≤ b.y) textLines)) := by
    rw [usdScore_perm hperm, eurScore_perm hperm, gbpScore_perm hperm]
    exact hscore
  have hdet : detectDocumentCurrency o1
      (List.insertionSort (fun a b : TextLine => a.y ≤ b.y) textLines) =
      detectDocumentCurrency o2
      (List.insertionSort (fun a b : TextLine => a.y ≤ b.y) textLines) :=
    detect_deterministic h1 h2 hscore'
  simp only [parseInvoiceTextWithPositionOrds, sortedByY,
    extractAmountFromPosition]
  rw [hdet]

/-- C8 witness: on a one-line EUR document (EUR's count uniquely maximal, no
domains so the domain order is empty) two distinct currency iteration orders
give the same record. -/
theorem c8_engine_deterministic_witness :
    parseInvoiceTextWithPositionOrds ["USD", "EUR", "GBP"] []
      [⟨"Total: €1.234,50", 50, 900, 0, 0⟩] =
    parseInvoiceTextWithPositionOrds ["GBP", "EUR", "USD"] []
      [⟨"Total: €1.234,50", 50, 900, 0, 0⟩] :=
  c8_engine_deterministic [⟨"Total: €1.234,50", 50, 900, 0, 0⟩]
    ["USD", "EUR", "GBP"] ["GBP", "EUR", "USD"] [] [] (by decide) (by decide)
    (by decide) (by decide) (by decide)
    (Or.inr (Or.inr (Or.inl ⟨by decide, by decide⟩)))

/-- C8 counterexample, both randomized divergences.  First: on a line tying
USD and GBP at weighted count one, two legitimate currency iteration orders
yield records with different currencies.  Second: a line carrying the two
domains `www.alpha.com` and `www.bravo.com` has all currency counts zero,
yet strategy 4's two legitimate domain iteration orders synthesize the
equally long names `Alpha` and `Bravo` and the records differ in the vendor
field.  Byte-identical output across two invocations is guaranteed in
neither case. -/
theorem c8_tie_counterexample :
    ((["USD", "EUR", "GBP"].Perm currencyKeys) ∧
      (["GBP", "EUR", "USD"].Perm currencyKeys) ∧
      parseInvoiceTextWithPosition ["USD", "EUR", "GBP"] [⟨"usd gbp", 0, 10, 0, 0⟩] ≠
        parseInvoiceTextWithPosition ["GBP", "EUR", "USD"] [⟨"usd gbp", 0, 10, 0, 0⟩]) ∧
    ((["alpha.com", "bravo.com"].Perm
        (dedupKeepFirst (vendorAllDomains
          (sortedByY [⟨"www.alpha.com www.bravo.com", 0, 10, 0, 0⟩])))) ∧
      (["bravo.com", "alpha.com"].Perm
        (dedupKeepFirst (vendorAllDomains
          (sortedByY [⟨"www.alpha.com www.bravo.com", 0, 10, 0, 0⟩])))) ∧
      usdScore [⟨"www.alpha.com www.bravo.com", 0, 10, 0, 0⟩] = 0 ∧
      eurScore [⟨"www.alpha.com www.bravo.com", 0, 10, 0, 0⟩] = 0 ∧
      gbpScore [⟨"www.alpha.com www.bravo.com", 0, 10, 0, 0⟩] = 0 ∧
      (parseInvoiceTextWithPositionOrds ["USD", "EUR", "GBP"]
          ["alpha.com", "bravo.com"]
          [⟨"www.alpha.com www.bravo.com", 0, 10, 0, 0⟩]).vendorName = "Alpha" ∧
      (parseInvoiceTextWithPositionOrds ["USD", "EUR", "GBP"]
          ["bravo.com", "alpha.com"]
          [⟨"www.alpha.com www.bravo.com", 0, 10, 0, 0⟩]).vendorName = "Bravo") :=
  ⟨⟨by decide, by decide, by decide⟩,
   ⟨by decide, by decide, by decide, by decide, by decide, by decide, by decide⟩⟩

/-- C7 (amended): the normalizer's output is exactly the lines whose
bounding-box string is present and splits into at least four
comma-separated fields — the materialization test counts fields after
defaulting failed parses to zero, not successful parses — and every line
with fewer fields is silently dropped (the function is total). -/
theorem c7_normalizer_materialization (regions : List OcrRegion) :
    extractTextFromOCRResult regions = normalizeLinesSpec regions := by
  have hinner : ∀ (lines : List OcrLine) (acc : List TextLine),
      lines.foldl (fun acc2 line =>
        match normalizeLine line with
        | some t => acc2 ++ [t]
        | none => acc2) acc = acc ++ lines.filterMap normalizeLine := by
    intro lines
    induction lines with
    | nil => intro acc; simp
    | cons line rest ih =>
        intro acc
        rw [List.foldl_cons, List.filterMap_cons]
        cases hnl : normalizeLine line with
        | some t => rw [ih]; simp
        | none => exact ih acc
  have houter : ∀ (rs : List OcrRegion) (acc : List TextLine),
      rs.foldl (fun acc region =>
        region.lines.foldl (fun acc2 line =>
          match normalizeLine line with
          | some t => acc2 ++ [t]
          | none => acc2) acc) acc =
        acc ++ rs.flatMap (fun region => region.lines.filterMap normalizeLine) := by
    intro rs
    induction rs with
    | nil => intro acc; simp
    | cons region rest ih =>
        intro acc
        rw [List.foldl_cons, List.flatMap_cons, hinner, ih]
        simp
  unfold extractTextFromOCRResult normalizeLinesSpec
  rw [houter]
  simp

/-- C7 counterexample: a line whose bounding box is `"a,b,c,d"` has zero
successfully parsed integers, yet it *is* materialized (with all-zero
coordinates), because the source counts the defaulted values — so "only if
at least 4 positional integers were successfully parsed" is false as
stated. -/
theorem c7_defaulted_zeros_counterexample :
    extractTextFromOCRResult [⟨[⟨some "a,b,c,d", ["Hi"]⟩]⟩] =
      [⟨"Hi", 0, 0, 0, 0⟩] ∧
    bboxParsedCount ⟨some "a,b,c,d", ["Hi"]⟩ = 0 :=
  ⟨by decide, by decide⟩

/-- C6: the invoice number resolver never returns a trimmed capture of
length one — every tier filters captures through the same
`len(result) > 1` check (and the tier-1 fallback through `len > 2`), so
any result other than the sentinel `"UNKNOWN"` has length at least two. -/
theorem c6_no_single_char_invoice_number (textLines : List TextLine) :
    extractInvoiceNumberFromPosition textLines = "UNKNOWN" ∨
      2 ≤ (extractInvoiceNumberFromPosition textLines).length :=
  (invNumber_inv textLines).imp id And.left

/-- C10: any non-sentinel invoice number consists only of ASCII letters,
digits and hyphens (`idCls`) — in particular it contains no whitespace —
and has length at least two, in every tier including the tier-1
alphanumeric-run fallback: captures come from the class `[A-Za-z0-9-]`
and fallback matches from `[A-Za-z0-9][-A-Za-z0-9]{2,}`. -/
theorem c10_invoice_number_charset (textLines : List TextLine) :
    extractInvoiceNumberFromPosition textLines = "UNKNOWN" ∨
    (2 ≤ (extractInvoiceNumberFromPosition textLines).length ∧
      ∀ c ∈ (extractInvoiceNumberFromPosition textLines).data, idCls c = true) :=
  invNumber_inv textLines

/-! ### Concrete evaluations exercising the embedding -/

example : tryPatterns "INVOICE #4521" = some "4521" := by decide

example : tryPatterns "invoice" = none := by decide

example : tryPatterns "Invoice Number: 123" = some "Number" := by decide

example :
    extractInvoiceNumberFromPosition [⟨"Invoice #AB12", 0, 0, 0, 0⟩] = "AB12" := by
  decide

example :
    extractAmountFromPosition ["USD", "EUR", "GBP"]
      [⟨"Total: €1.234,50", 50, 900, 0, 0⟩] = (1234, "EUR") := by decide

example :
    extractAmountFromPosition ["USD", "EUR", "GBP"] [] = (0, "EUR") := by decide

example : extractDateFromPosition [⟨"Date: 12/05/2024", 0, 0, 0, 0⟩] = "12/05/2024" := by
  decide

example :
    extractVendorNameFromPosition
      [⟨"Acme Corp", 50, 40, 0, 0⟩, ⟨"INVOICE #4521", 600, 50, 0, 0⟩,
       ⟨"www.acmecorp.com", 50, 600, 0, 0⟩, ⟨"Total: €1.234,50", 50, 900, 0, 0⟩] =
      "Acme Corp" := by decide

example :
    extractVendorNameFromPositionOrd ["alpha.com", "bravo.com"]
      [⟨"www.alpha.com www.bravo.com", 0, 10, 0, 0⟩] = "Alpha" := by decide

example :
    extractVendorNameFromPositionOrd ["bravo.com", "alpha.com"]
      [⟨"www.alpha.com www.bravo.com", 0, 10, 0, 0⟩] = "Bravo" := by decide

example :
    parseInvoiceTextWithPosition ["USD", "EUR", "GBP"]
      [⟨"INVOICE #4521", 600, 50, 0, 0⟩, ⟨"Acme Corp", 50, 40, 0, 0⟩,
       ⟨"www.acmecorp.com", 50, 600, 0, 0⟩, ⟨"Total: €1.234,50", 50, 900, 0, 0⟩] =
      ⟨"4521", "UNKNOWN", 1234, "EUR", "Acme Corp"⟩ := by decide

example : parseAmount "1.234,56" = some 1234 := by decide

example : parseAmount "1,234.56" = some 1 := by decide

example : parseAmount "1234.56" = some (mkRat 123456 100) := by decide

example : parseAmount "1234,56" = some 1234 := by decide

example : parseAmount "12.34.56" = some (mkRat 123456 100) := by decide

example : mkRat 123456 100 = (1234.56 : ℚ) := by norm_num

end ScanIn
